import Mathlib

/-!
Verification of the KATCP device-server core (`katcp/katcp.py`).

Python 2 byte strings are modelled as `List Char`; the character-class
predicates (`isalpha`, `isalnum`) are the ASCII ones that Python 2 `str`
methods implement.
-/

namespace Katcp

/-- Message types, from `Message.REQUEST, REPLY, INFORM`. -/
inductive MType where
  | request
  | reply
  | inform
deriving DecidableEq, Repr

/-- `Message.TYPE_SYMBOLS`: mapping from message type to type code character. -/
def typeSymbol : MType → Char
  | .request => '?'
  | .reply => '!'
  | .inform => '#'

/-- `Message.TYPE_SYMBOL_LOOKUP`: mapping from type code character to message type. -/
def typeSymbolLookup (c : Char) : Option MType :=
  if c == '?' then some .request
  else if c == '!' then some .reply
  else if c == '#' then some .inform
  else none

/-- The character class of `Message.ESCAPE_RE`, i.e. `[\\ \0\n\r\x1b\t]`. -/
def isEscapeChar (c : Char) : Bool :=
  c == '\\' || c == ' ' || c == '\x00' || c == '\n' || c == '\r' ||
    c == '\x1b' || c == '\t'

/-- `Message.REVERSE_ESCAPE_LOOKUP` on the single characters `ESCAPE_RE` matches. -/
def reverseEscape (c : Char) : Char :=
  if c == '\\' then '\\'
  else if c == ' ' then '_'
  else if c == '\x00' then '0'
  else if c == '\n' then 'n'
  else if c == '\r' then 'r'
  else if c == '\x1b' then 'e'
  else if c == '\t' then 't'
  else c

/-- `Message.ESCAPE_RE.sub(self._escape_match, x)`: replace every character the
class matches by a backslash followed by its escape code. -/
def escapeChars : List Char → List Char
  | [] => []
  | c :: cs => (if isEscapeChar c then ['\\', reverseEscape c] else [c]) ++ escapeChars cs

/-- One serialized argument: the escaped argument, or `\@` when it is empty
(`escaped_args = [x or "\\@" for x in escaped_args]`). -/
def serializeArg (a : List Char) : List Char :=
  let e := escapeChars a
  if e.isEmpty then ['\\', '@'] else e

/-- A KATCP message: `Message(mtype, name, arguments)`. -/
structure Message where
  mtype : MType
  name : List Char
  arguments : List (List Char)
deriving DecidableEq, Repr

/-- `" ".join(escaped_args)`. -/
def joinArgs : List (List Char) → List Char
  | [] => []
  | [a] => a
  | a :: b :: as' => a ++ ' ' :: joinArgs (b :: as')

/-- `Message.__str__`: the serialized wire form (without the trailing LF,
which `send_message` appends). -/
def serialize (m : Message) : List Char :=
  if m.arguments.isEmpty then typeSymbol m.mtype :: m.name
  else typeSymbol m.mtype :: m.name ++ ' ' :: joinArgs (m.arguments.map serializeArg)

/-- The character class of `MessageParser.SPECIAL_RE`, i.e. `[\0\n\r\x1b\t ]`. -/
def isSpecialChar (c : Char) : Bool :=
  c == '\x00' || c == '\n' || c == '\r' || c == '\x1b' || c == '\t' || c == ' '

/-- `MessageParser.ESCAPE_LOOKUP`: mapping from escape character to the
corresponding unescaped string (`@` maps to the empty string). -/
def escapeLookup (c : Char) : Option (List Char) :=
  if c == '\\' then some ['\\']
  else if c == '_' then some [' ']
  else if c == '0' then some ['\x00']
  else if c == 'n' then some ['\n']
  else if c == 'r' then some ['\r']
  else if c == 'e' then some ['\x1b']
  else if c == 't' then some ['\t']
  else if c == '@' then some []
  else none

/-- `UNESCAPE_RE.sub(self._unescape_match, arg)`: scan left to right; each
backslash must be followed by an escape character (else
`KatcpSyntaxError`, modelled as `none`); a backslash ending the argument is
also a syntax error. -/
def unescapeChars : List Char → Option (List Char)
  | [] => some []
  | c :: cs =>
    if c = '\\' then
      match cs with
      | [] => none
      | d :: ds =>
        match escapeLookup d with
        | some s => (unescapeChars ds).map (s ++ ·)
        | none => none
    else (unescapeChars cs).map (c :: ·)

/-- `MessageParser._parse_arg`: reject any unescaped special character, then
unescape. -/
def parseArg (t : List Char) : Option (List Char) :=
  if t.any isSpecialChar then none else unescapeChars t

/-- The character class of `MessageParser.WHITESPACE_RE`, i.e. `[ \t]`. -/
def isKatcpWS (c : Char) : Bool :=
  c == ' ' || c == '\t'

theorem dropWhile_length_le (p : Char → Bool) :
    ∀ l : List Char, (l.dropWhile p).length ≤ l.length := by
  intro l
  induction l with
  | nil => simp [List.dropWhile]
  | cons c cs ih =>
    by_cases h : p c
    · simp only [List.dropWhile, h]
      exact Nat.le_succ_of_le ih
    · simp [List.dropWhile, h]

/-- Helper for `splitWS`: accumulate the current field, emitting it at each
maximal run of whitespace. -/
def splitWSAux : List Char → List Char → List (List Char)
  | [], acc => [acc.reverse]
  | c :: cs, acc =>
    if isKatcpWS c then
      acc.reverse :: splitWSAux (cs.dropWhile isKatcpWS) []
    else
      splitWSAux cs (c :: acc)
termination_by l _ => l.length
decreasing_by
  · exact Nat.lt_succ_of_le (dropWhile_length_le isKatcpWS cs)
  · exact Nat.lt_succ_self cs.length

/-- `re.split(WHITESPACE_RE, line)`: split on maximal runs of space/tab,
keeping empty fields at the boundaries. -/
def splitWS (s : List Char) : List (List Char) :=
  splitWSAux s []

/-- `if not parts[-1]: del parts[-1]` — remove one trailing empty field. -/
def dropTrailingEmpty (parts : List (List Char)) : List (List Char) :=
  match parts.getLast? with
  | some [] => parts.dropLast
  | _ => parts

/-- The fields of a line: split on KATCP whitespace with the possible trailing
empty field removed, as `MessageParser.parse` computes them. -/
def lineTokens (line : List Char) : List (List Char) :=
  dropTrailingEmpty (splitWS line)

/-- The command-name checks of `Message.__init__`: the name must be non-empty,
`name.replace("-","").isalnum()` must hold (ASCII, and false on the empty
string), and the first character must be alphabetic. -/
def validName (name : List Char) : Bool :=
  !name.isEmpty &&
  (let filtered := name.filter (fun c => !(c == '-'))
   !filtered.isEmpty && filtered.all Char.isAlphanum) &&
  (name.headD ' ').isAlpha

/-- `[self._parse_arg(x) for x in parts[1:]]` with failure propagated. -/
def parseArgs : List (List Char) → Option (List (List Char))
  | [] => some []
  | t :: ts =>
    match parseArg t with
    | none => none
    | some a => (parseArgs ts).map (a :: ·)

/-- `MessageParser.parse`: parse one line (terminator already stripped) into a
message, `none` on `KatcpSyntaxError`. -/
def parse (line : List Char) : Option Message :=
  match line with
  | [] => none
  | c :: _ =>
    match typeSymbolLookup c with
    | none => none
    | some mtype =>
      let parts := lineTokens line
      let name := (parts.headD []).drop 1
      match parseArgs parts.tail with
      | none => none
      | some args =>
        if validName name then some ⟨mtype, name, args⟩ else none

end Katcp

namespace Katcp

theorem typeSymbolLookup_typeSymbol (mt : MType) :
    typeSymbolLookup (typeSymbol mt) = some mt := by
  cases mt <;> rfl

theorem special_imp_escape {c : Char} (h : isSpecialChar c = true) :
    isEscapeChar c = true := by
  simp only [isSpecialChar, Bool.or_eq_true, beq_iff_eq] at h
  rcases h with ((((h | h) | h) | h) | h) | h <;> subst h <;> decide

theorem ws_imp_escape {c : Char} (h : isKatcpWS c = true) :
    isEscapeChar c = true := by
  simp only [isKatcpWS, Bool.or_eq_true, beq_iff_eq] at h
  rcases h with h | h <;> subst h <;> decide

theorem escapeLookup_reverseEscape {c : Char} (h : isEscapeChar c = true) :
    escapeLookup (reverseEscape c) = some [c] := by
  simp only [isEscapeChar, Bool.or_eq_true, beq_iff_eq] at h
  rcases h with (((((h | h) | h) | h) | h) | h) | h <;> subst h <;> decide

/-- Characters emitted by escaping are never special and never KATCP whitespace. -/
theorem mem_escapeChars {d : Char} :
    ∀ a : List Char, d ∈ escapeChars a →
      isSpecialChar d = false ∧ isKatcpWS d = false
  | [], h => by simp [escapeChars] at h
  | c :: cs, h => by
    rw [escapeChars] at h
    rcases List.mem_append.mp h with h1 | h2
    · by_cases hc : isEscapeChar c = true
      · rw [if_pos hc] at h1
        rcases List.mem_cons.mp h1 with rfl | h1
        · exact ⟨by decide, by decide⟩
        · rcases List.mem_singleton.mp h1 with rfl
          simp only [isEscapeChar, Bool.or_eq_true, beq_iff_eq] at hc
          rcases hc with (((((h | h) | h) | h) | h) | h) | h <;> subst h <;>
            exact ⟨by decide, by decide⟩
      · rw [if_neg hc] at h1
        rcases List.mem_singleton.mp h1 with rfl
        have hc' : isEscapeChar d = false := by
          cases he : isEscapeChar d
          · rfl
          · exact absurd he hc
        constructor
        · cases hs : isSpecialChar d
          · rfl
          · rw [special_imp_escape hs] at hc'; exact absurd hc' (by simp)
        · cases hs : isKatcpWS d
          · rfl
          · rw [ws_imp_escape hs] at hc'; exact absurd hc' (by simp)
    · exact mem_escapeChars cs h2

/-- Unescaping inverts escaping on every argument string. -/
theorem unescape_escape : ∀ a : List Char, unescapeChars (escapeChars a) = some a
  | [] => rfl
  | c :: cs => by
    by_cases h : isEscapeChar c = true
    · rw [escapeChars, if_pos h]
      show unescapeChars ('\\' :: reverseEscape c :: escapeChars cs) = some (c :: cs)
      rw [unescapeChars, if_pos rfl, escapeLookup_reverseEscape h, unescape_escape cs]
      rfl
    · rw [escapeChars, if_neg h]
      have hc : ¬ c = '\\' := by
        intro hh
        subst hh
        exact h (by decide)
      show unescapeChars (c :: escapeChars cs) = some (c :: cs)
      rw [unescapeChars.eq_def]
      simp only [if_neg hc, unescape_escape cs, Option.map_some']

end Katcp

namespace Katcp

theorem mem_of_getLast?_eq {α : Type} {l : List α} {a : α}
    (h : l.getLast? = some a) : a ∈ l := by
  induction l with
  | nil => simp at h
  | cons x xs ih =>
    cases xs with
    | nil =>
      simp only [List.getLast?_singleton, Option.some.injEq] at h
      simp [h]
    | cons y ys =>
      rw [List.getLast?_cons_cons] at h
      exact List.mem_cons_of_mem _ (ih h)

theorem escapeChars_ne_nil {a : List Char} (h : a ≠ []) : escapeChars a ≠ [] := by
  cases a with
  | nil => exact absurd rfl h
  | cons c cs =>
    rw [escapeChars]
    by_cases hc : isEscapeChar c = true <;> simp [hc]

theorem serializeArg_ne_nil (a : List Char) : serializeArg a ≠ [] := by
  unfold serializeArg
  by_cases h : (escapeChars a).isEmpty
  · simp [h]
  · simp only [h, if_neg, Bool.false_eq_true, not_false_eq_true, if_false]
    intro hcon
    rw [hcon] at h
    exact h rfl

theorem mem_serializeArg {d : Char} {a : List Char} (h : d ∈ serializeArg a) :
    isSpecialChar d = false ∧ isKatcpWS d = false := by
  unfold serializeArg at h
  by_cases he : (escapeChars a).isEmpty
  · rw [if_pos he] at h
    rcases List.mem_cons.mp h with rfl | h
    · exact ⟨by decide, by decide⟩
    · rcases List.mem_singleton.mp h with rfl
      exact ⟨by decide, by decide⟩
  · rw [if_neg he] at h
    exact mem_escapeChars a h

theorem parseArg_serializeArg (a : List Char) : parseArg (serializeArg a) = some a := by
  unfold parseArg
  have hany : (serializeArg a).any isSpecialChar = false := by
    cases hx : (serializeArg a).any isSpecialChar
    · rfl
    · exfalso
      rcases List.any_eq_true.mp hx with ⟨d, hd, hds⟩
      rw [(mem_serializeArg hd).1] at hds
      exact Bool.false_ne_true hds
  rw [hany]
  simp only [Bool.false_eq_true, if_false]
  unfold serializeArg
  by_cases he : (escapeChars a).isEmpty
  · rw [if_pos he]
    have ha : a = [] := by
      by_contra hne
      exact escapeChars_ne_nil hne (List.isEmpty_iff.mp he)
    subst ha
    decide
  · rw [if_neg he]
    exact unescape_escape a

theorem splitWSAux_append_tok {t : List Char} (ht : ∀ c ∈ t, isKatcpWS c = false) :
    ∀ acc l, splitWSAux (t ++ l) acc = splitWSAux l (t.reverse ++ acc) := by
  induction t with
  | nil => intro acc l; simp
  | cons c t' ih =>
    intro acc l
    have hc : isKatcpWS c = false := ht c (List.mem_cons_self c t')
    rw [List.cons_append, splitWSAux, if_neg (by simp [hc])]
    rw [ih (fun d hd => ht d (List.mem_cons_of_mem c hd)) (c :: acc) l]
    simp

theorem splitWSAux_ws_head {c : Char} (hc : isKatcpWS c = true) (l acc) :
    splitWSAux (c :: l) acc = acc.reverse :: splitWSAux (l.dropWhile isKatcpWS) [] := by
  rw [splitWSAux, if_pos hc]

theorem splitWSAux_join :
    ∀ ts : List (List Char), ts ≠ [] →
      (∀ t ∈ ts, t ≠ []) → (∀ t ∈ ts, ∀ c ∈ t, isKatcpWS c = false) →
      splitWSAux (joinArgs ts) [] = ts
  | [], h, _, _ => absurd rfl h
  | [t], _, _, hws => by
    rw [joinArgs]
    have h1 := splitWSAux_append_tok (hws t (List.mem_singleton.mpr rfl)) [] []
    rw [List.append_nil, List.append_nil] at h1
    rw [h1, splitWSAux]
    simp
  | t :: u :: ts, _, hne, hws => by
    rw [joinArgs]
    rw [show t ++ ' ' :: joinArgs (u :: ts) = t ++ (' ' :: joinArgs (u :: ts)) from rfl]
    rw [splitWSAux_append_tok (hws t (List.mem_cons_self _ _)) [] _]
    rw [splitWSAux_ws_head (by decide)]
    have hu : u ≠ [] := hne u (List.mem_cons_of_mem _ (List.mem_cons_self _ _))
    obtain ⟨d, u', rfl⟩ : ∃ d u', u = d :: u' := by
      cases u with
      | nil => exact absurd rfl hu
      | cons d u' => exact ⟨d, u', rfl⟩
    have hdrop : (joinArgs ((d :: u') :: ts)).dropWhile isKatcpWS
        = joinArgs ((d :: u') :: ts) := by
      have hdws : isKatcpWS d = false :=
        hws (d :: u') (List.mem_cons_of_mem _ (List.mem_cons_self _ _)) d
          (List.mem_cons_self _ _)
      cases ts with
      | nil => rw [joinArgs, List.dropWhile_cons, if_neg (by simp [hdws])]
      | cons v ts' =>
        rw [joinArgs, List.cons_append, List.dropWhile_cons, if_neg (by simp [hdws])]
    rw [hdrop]
    rw [splitWSAux_join ((d :: u') :: ts) (by simp)
      (fun x hx => hne x (List.mem_cons_of_mem _ hx))
      (fun x hx => hws x (List.mem_cons_of_mem _ hx))]
    simp

theorem serialize_eq_join (mt : MType) (name : List Char) (args : List (List Char)) :
    serialize ⟨mt, name, args⟩
      = joinArgs ((typeSymbol mt :: name) :: args.map serializeArg) := by
  cases args with
  | nil => simp [serialize, joinArgs]
  | cons a as => simp [serialize, joinArgs]

theorem alphanum_not_ws {c : Char} (h : c.isAlphanum = true) : isKatcpWS c = false := by
  cases hw : isKatcpWS c
  · rfl
  · exfalso
    simp only [isKatcpWS, Bool.or_eq_true, beq_iff_eq] at hw
    rcases hw with rfl | rfl <;> simp_all

theorem validName_chars {name : List Char} (h : validName name = true) :
    ∀ c ∈ name, isKatcpWS c = false := by
  intro c hc
  simp only [validName, Bool.and_eq_true, Bool.not_eq_true'] at h
  obtain ⟨⟨-, -, hall⟩, -⟩ := h
  by_cases hdash : c = '-'
  · subst hdash; decide
  · have : c ∈ name.filter (fun c => !(c == '-')) :=
      List.mem_filter.mpr ⟨hc, by simp [hdash]⟩
    exact alphanum_not_ws (List.all_eq_true.mp hall c this)

theorem typeSymbol_not_ws (mt : MType) : isKatcpWS (typeSymbol mt) = false := by
  cases mt <;> decide

theorem dropTrailingEmpty_of_ne {parts : List (List Char)}
    (h : ∀ t ∈ parts, t ≠ []) : dropTrailingEmpty parts = parts := by
  unfold dropTrailingEmpty
  cases hl : parts.getLast? with
  | none => rfl
  | some t =>
    cases t with
    | nil => exact absurd rfl (h [] (mem_of_getLast?_eq hl))
    | cons c cs => rfl

theorem parseArgs_map_serializeArg :
    ∀ args : List (List Char), parseArgs (args.map serializeArg) = some args
  | [] => rfl
  | a :: as => by
    rw [List.map_cons, parseArgs, parseArg_serializeArg, parseArgs_map_serializeArg as]
    rfl

/-- The tokens of a serialized message are the symbol-plus-name token
followed by one serialized argument per argument. -/
theorem lineTokens_serialize (mt : MType) (name : List Char) (args : List (List Char))
    (h : validName name = true) :
    lineTokens (serialize ⟨mt, name, args⟩)
      = (typeSymbol mt :: name) :: args.map serializeArg := by
  have hne : ∀ t ∈ (typeSymbol mt :: name) :: args.map serializeArg, t ≠ [] := by
    intro t ht
    rcases List.mem_cons.mp ht with rfl | ht
    · simp
    · rcases List.mem_map.mp ht with ⟨a, -, rfl⟩
      exact serializeArg_ne_nil a
  have hws : ∀ t ∈ (typeSymbol mt :: name) :: args.map serializeArg,
      ∀ c ∈ t, isKatcpWS c = false := by
    intro t ht c hc
    rcases List.mem_cons.mp ht with rfl | ht
    · rcases List.mem_cons.mp hc with rfl | hc
      · exact typeSymbol_not_ws mt
      · exact validName_chars h c hc
    · rcases List.mem_map.mp ht with ⟨a, -, rfl⟩
      exact (mem_serializeArg hc).2
  rw [lineTokens, serialize_eq_join, splitWS,
    splitWSAux_join _ (by simp) hne hws,
    dropTrailingEmpty_of_ne hne]

theorem serialize_head (mt : MType) (name : List Char) (args : List (List Char)) :
    serialize ⟨mt, name, args⟩ = typeSymbol mt ::
      (name ++ if args.isEmpty then []
               else ' ' :: joinArgs (args.map serializeArg)) := by
  cases args <;> simp [serialize]

/-- C1. Codec round-trip: for every message whose name passes the
constructor's validity checks — any kind, any finite list of argument
strings including empty ones and ones containing NUL, LF, CR, ESC, TAB,
space or backslash — parsing the serialized form returns exactly the
original message, field by field. -/
theorem parse_serialize (m : Message) (h : validName m.name = true) :
    parse (serialize m) = some m := by
  obtain ⟨mt, name, args⟩ := m
  have hs := serialize_head mt name args
  rw [hs, parse, typeSymbolLookup_typeSymbol]
  have htok := lineTokens_serialize mt name args h
  rw [hs] at htok
  rw [htok]
  simp only [List.headD_cons, List.tail_cons]
  rw [parseArgs_map_serializeArg]
  have hdrop : (typeSymbol mt :: name).drop 1 = name := rfl
  rw [hdrop]
  simp [show validName name = true from h]

/-- Witness for C1 at a concrete message exercising the escape table:
kind REQUEST, name `foo`, arguments `"a b"`, `""` and a string holding
backslash, NUL, LF, CR, ESC and TAB. -/
theorem parse_serialize_witness :
    validName ['f', 'o', 'o'] = true ∧
      parse (serialize ⟨.request, ['f', 'o', 'o'],
        [['a', ' ', 'b'], [], ['\\', '\x00', '\n', '\x0d', '\x1b', '\t']]⟩)
        = some ⟨.request, ['f', 'o', 'o'],
            [['a', ' ', 'b'], [], ['\\', '\x00', '\n', '\x0d', '\x1b', '\t']]⟩ :=
  ⟨by decide, parse_serialize _ (by decide)⟩

end Katcp

namespace Katcp

/-- Claim side: the escape alphabet `{\\, _, 0, n, r, e, t, @}`. -/
def inEscapeAlphabet (c : Char) : Bool :=
  c == '\\' || c == '_' || c == '0' || c == 'n' || c == 'r' ||
    c == 'e' || c == 't' || c == '@'

/-- Claim side: scanning the token left to right, some backslash is followed
by a character outside the escape alphabet, or a lone backslash ends the
token. -/
def badEscapes : List Char → Bool
  | [] => false
  | c :: cs =>
    if c = '\\' then
      match cs with
      | [] => true
      | d :: ds => if inEscapeAlphabet d then badEscapes ds else true
    else badEscapes cs

/-- Claim side: the command name is empty, starts with a non-alphabetic
character, or contains a character outside `[A-Za-z0-9-]`. -/
def claimBadName (name : List Char) : Bool :=
  name.isEmpty || !(name.headD ' ').isAlpha ||
    name.any (fun c => !(c.isAlphanum || c == '-'))

/-- Claim side: an argument token contains an unescaped special character,
ends with a lone backslash, or has a backslash followed by a character
outside the escape alphabet. -/
def claimBadToken (t : List Char) : Bool :=
  t.any isSpecialChar || badEscapes t

/-- Claim side: the line is malformed in one of the ways the claim lists. -/
def malformedLine (line : List Char) : Bool :=
  line.isEmpty ||
  !((line.headD ' ') == '?' || (line.headD ' ') == '!' || (line.headD ' ') == '#') ||
  claimBadName (((lineTokens line).headD []).drop 1) ||
  ((lineTokens line).tail).any claimBadToken

theorem typeSymbolLookup_isSome (c : Char) :
    (typeSymbolLookup c).isSome = (c == '?' || c == '!' || c == '#') := by
  unfold typeSymbolLookup
  by_cases h1 : c = '?' <;> by_cases h2 : c = '!' <;> by_cases h3 : c = '#' <;>
    simp [h1, h2, h3]

theorem escapeLookup_isSome (c : Char) :
    (escapeLookup c).isSome = inEscapeAlphabet c := by
  unfold escapeLookup inEscapeAlphabet
  split_ifs <;> simp_all

theorem unescapeChars_cons (c : Char) (cs : List Char) :
    unescapeChars (c :: cs) =
      if c = '\\' then
        match cs with
        | [] => none
        | d :: ds =>
          match escapeLookup d with
          | some s => (unescapeChars ds).map (s ++ ·)
          | none => none
      else (unescapeChars cs).map (c :: ·) := by
  rw [unescapeChars.eq_def]

theorem badEscapes_cons (c : Char) (cs : List Char) :
    badEscapes (c :: cs) =
      if c = '\\' then
        match cs with
        | [] => true
        | d :: ds => if inEscapeAlphabet d then badEscapes ds else true
      else badEscapes cs := by
  rw [badEscapes.eq_def]

theorem unescapeChars_isSome : ∀ t : List Char,
    (unescapeChars t).isSome = !badEscapes t
  | [] => rfl
  | c :: cs => by
    rw [unescapeChars_cons, badEscapes_cons]
    by_cases hc : c = '\\'
    · rw [if_pos hc, if_pos hc]
      cases cs with
      | nil => rfl
      | cons d ds =>
        have he := escapeLookup_isSome d
        cases hl : escapeLookup d with
        | none =>
          rw [hl] at he
          simp only [Option.isSome_none, Bool.false_eq] at he
          dsimp only
          rw [hl, if_neg (by rw [he]; exact Bool.false_ne_true)]
          rfl
        | some s =>
          rw [hl] at he
          simp only [Option.isSome_some, Bool.true_eq] at he
          dsimp only
          rw [hl, if_pos he]
          rw [Option.isSome_map']
          exact unescapeChars_isSome ds
    · rw [if_neg hc, if_neg hc, Option.isSome_map']
      exact unescapeChars_isSome cs

theorem parseArg_isSome (t : List Char) :
    (parseArg t).isSome = !claimBadToken t := by
  unfold parseArg claimBadToken
  by_cases h : t.any isSpecialChar = true
  · simp [h]
  · simp only [Bool.not_eq_true] at h
    rw [if_neg (by rw [h]; exact Bool.false_ne_true), h]
    rw [Bool.false_or]
    exact unescapeChars_isSome t

theorem parseArgs_isSome : ∀ ts : List (List Char),
    (parseArgs ts).isSome = ts.all (fun t => (parseArg t).isSome)
  | [] => rfl
  | t :: ts => by
    rw [parseArgs, List.all_cons]
    cases hp : parseArg t with
    | none => simp [hp]
    | some a =>
      simp only [hp, Option.isSome_some, Bool.true_and, Option.isSome_map']
      exact parseArgs_isSome ts

theorem validName_iff_claim (name : List Char) :
    validName name = true ↔ claimBadName name = false := by
  constructor
  · intro hv
    simp only [validName, Bool.and_eq_true, Bool.not_eq_true'] at hv
    obtain ⟨⟨hemp, hfil, hall⟩, halpha⟩ := hv
    have hany : name.any (fun c => !(c.isAlphanum || c == '-')) = false := by
      rw [List.any_eq_false]
      intro c hc
      by_cases hdash : c = '-'
      · simp [hdash]
      · have hmem : c ∈ name.filter (fun c => !(c == '-')) :=
          List.mem_filter.mpr ⟨hc, by simp [hdash]⟩
        have := List.all_eq_true.mp hall c hmem
        simp [this]
    unfold claimBadName
    rw [hemp, halpha, hany]
    rfl
  · intro hb
    simp only [claimBadName, Bool.or_eq_false_iff, Bool.not_eq_false'] at hb
    obtain ⟨⟨hemp, halpha⟩, hany⟩ := hb
    rw [List.any_eq_false] at hany
    simp only [validName, Bool.and_eq_true, Bool.not_eq_true']
    obtain ⟨c0, name', rfl⟩ : ∃ c0 name', name = c0 :: name' := by
      cases name with
      | nil => simp at hemp
      | cons c0 name' => exact ⟨c0, name', rfl⟩
    simp only [List.headD_cons] at halpha
    refine ⟨⟨rfl, ?_, ?_⟩, halpha⟩
    · have h0 : c0 ≠ '-' := by
        intro h
        rw [h] at halpha
        exact absurd halpha (by decide)
      have hmem : c0 ∈ (c0 :: name').filter (fun c => !(c == '-')) :=
        List.mem_filter.mpr ⟨List.mem_cons_self _ _, by simp [h0]⟩
      cases hfe : (List.filter (fun c => !(c == '-')) (c0 :: name')).isEmpty
      · rfl
      · exfalso
        rw [List.isEmpty_iff.mp hfe] at hmem
        exact absurd hmem (List.not_mem_nil c0)
    · rw [List.all_eq_true]
      intro c hcmem
      obtain ⟨hcn, hcd⟩ := List.mem_filter.mp hcmem
      have h2 : (c.isAlphanum || c == '-') = true := by
        cases hor : (c.isAlphanum || c == '-')
        · exact absurd (by simp [hor]) (hany c hcn)
        · rfl
      rcases Bool.or_eq_true_iff.mp h2 with ha | hd
      · exact ha
      · exfalso
        simp only [Bool.not_eq_true'] at hcd
        rw [hd] at hcd
        exact absurd hcd (by decide)

theorem validName_eq_not_claimBadName (name : List Char) :
    validName name = !claimBadName name := by
  cases hb : claimBadName name
  · simp only [Bool.not_false]
    exact (validName_iff_claim name).mpr hb
  · simp only [Bool.not_true]
    cases hv : validName name
    · rfl
    · have hfalse := (validName_iff_claim name).mp hv
      rw [hfalse] at hb
      exact absurd hb Bool.false_ne_true

end Katcp

namespace Katcp

theorem all_not_any {α : Type} (p : α → Bool) :
    ∀ l : List α, l.all (fun t => !p t) = !l.any p
  | [] => rfl
  | a :: l => by
    rw [List.all_cons, List.any_cons, Bool.not_or, all_not_any p l]

/-- C2. Parser rejection: `MessageParser.parse` fails with a syntax error on
exactly the lines the claim enumerates as malformed — empty line, bad
leading byte, empty name, name starting with a non-alphabetic character or
containing a character outside `[A-Za-z0-9-]`, an argument token ending in
a lone backslash or containing a backslash followed by a character outside
the escape alphabet, or an argument token containing an unescaped special
character — and returns a message on every other line. -/
theorem parse_isSome_eq_not_malformed (line : List Char) :
    (parse line).isSome = !malformedLine line := by
  cases line with
  | nil => rfl
  | cons c rest =>
    rw [parse]
    have hhead : (c :: rest).headD ' ' = c := rfl
    cases hsym : typeSymbolLookup c with
    | none =>
      have hts := typeSymbolLookup_isSome c
      rw [hsym] at hts
      simp only [Option.isSome_none, Bool.false_eq] at hts
      unfold malformedLine
      rw [hhead, hts]
      simp
    | some mt =>
      have hts := typeSymbolLookup_isSome c
      rw [hsym] at hts
      simp only [Option.isSome_some, Bool.true_eq] at hts
      unfold malformedLine
      rw [hhead, hts]
      simp only [List.isEmpty_cons, Bool.not_true, Bool.false_or]
      have hfun : (fun t => (parseArg t).isSome) = (fun t => !claimBadToken t) :=
        funext parseArg_isSome
      have hchain : (parseArgs ((lineTokens (c :: rest)).tail)).isSome
          = !((lineTokens (c :: rest)).tail).any claimBadToken := by
        rw [parseArgs_isSome, hfun, all_not_any]
      cases hp : parseArgs ((lineTokens (c :: rest)).tail) with
      | none =>
        rw [hp] at hchain
        simp only [Option.isSome_none, Bool.false_eq] at hchain
        have hany : ((lineTokens (c :: rest)).tail).any claimBadToken = true := by
          cases ha : ((lineTokens (c :: rest)).tail).any claimBadToken
          · rw [ha] at hchain
            exact absurd hchain.symm (by decide)
          · rfl
        rw [hany]
        simp
      | some args =>
        rw [hp] at hchain
        simp only [Option.isSome_some, Bool.true_eq] at hchain
        have hany : ((lineTokens (c :: rest)).tail).any claimBadToken = false := by
          cases ha : ((lineTokens (c :: rest)).tail).any claimBadToken
          · rfl
          · rw [ha] at hchain
            exact absurd hchain (by decide)
        rw [hany, Bool.or_false]
        rw [← validName_eq_not_claimBadName]
        cases hv : validName (((lineTokens (c :: rest)).headD []).drop 1)
        · simp [hv]
        · simp [hv]

end Katcp

namespace Katcp

/-- The behaviours a registered request handler can exhibit, as
`DeviceServerBase.handle_request` distinguishes them: return a message,
raise `FailReply` with a reason, raise `AsyncReply`, or raise any other
exception (carrying the traceback string formatted with `tb_limit`). -/
inductive HandlerOutcome where
  | ret (m : Message)
  | failReply (reason : List Char)
  | asyncReply
  | raised (tb : List Char)
deriving DecidableEq, Repr

/-- Dictionary lookup on an association list keyed by name, as used for
`self._request_handlers[msg.name]`. -/
def lookupName {β : Type} (name : List Char) :
    List (List Char × β) → Option β
  | [] => none
  | (n, b) :: rest => if n = name then some b else lookupName name rest

/-- `DeviceServerBase.handle_request`: dispatch a request to the handler
registered under its name and compute the reply to send (`none` when an
`AsyncReply` suppresses the reply). The two `assert` statements on the
handler's return value raise `AssertionError`, which the generic
`except Exception` arm converts into a fail reply carrying the formatted
traceback (`assertTb`). The function is total: no exception propagates. -/
def handle_request (handlers : List (List Char × HandlerOutcome))
    (assertTb : List Char) (msg : Message) : Option Message :=
  match lookupName msg.name handlers with
  | some outcome =>
    match outcome with
    | .ret r =>
      if r.mtype = .reply ∧ r.name = msg.name then some r
      else some ⟨.reply, msg.name, ["fail".toList, assertTb]⟩
    | .failReply reason => some ⟨.reply, msg.name, ["fail".toList, reason]⟩
    | .asyncReply => none
    | .raised tb => some ⟨.reply, msg.name, ["fail".toList, tb]⟩
  | none => some ⟨.reply, msg.name, ["invalid".toList, "Unknown request.".toList]⟩

/-- C3. Request dispatch contract: for every request delivered to
`handle_request` exactly one of the claim's outcomes occurs — (a) a handler
returning a matching REPLY has that reply sent; (b) `FailReply r` yields
`!name fail r`; (c) `AsyncReply` sends nothing; (d) any other exception
yields `!name fail tb` with the truncated traceback; and an unregistered
name yields `!name invalid "Unknown request."`. The function being total,
no exception propagates. -/
theorem handle_request_spec (handlers : List (List Char × HandlerOutcome))
    (assertTb : List Char) (msg : Message) :
    (∀ r, lookupName msg.name handlers = some (.ret r) →
      r.mtype = .reply → r.name = msg.name →
      handle_request handlers assertTb msg = some r) ∧
    (∀ reason, lookupName msg.name handlers = some (.failReply reason) →
      handle_request handlers assertTb msg
        = some ⟨.reply, msg.name, ["fail".toList, reason]⟩) ∧
    (lookupName msg.name handlers = some .asyncReply →
      handle_request handlers assertTb msg = none) ∧
    (∀ tb, lookupName msg.name handlers = some (.raised tb) →
      handle_request handlers assertTb msg
        = some ⟨.reply, msg.name, ["fail".toList, tb]⟩) ∧
    (lookupName msg.name handlers = none →
      handle_request handlers assertTb msg
        = some ⟨.reply, msg.name, ["invalid".toList, "Unknown request.".toList]⟩) := by
  refine ⟨?_, ?_, ?_, ?_, ?_⟩
  · intro r hl hm hn
    unfold handle_request
    rw [hl]
    simp [hm, hn]
  · intro reason hl
    unfold handle_request
    rw [hl]
  · intro hl
    unfold handle_request
    rw [hl]
  · intro tb hl
    unfold handle_request
    rw [hl]
  · intro hl
    unfold handle_request
    rw [hl]

/-- Witness for C3: all five dispatch outcomes evaluated at concrete
handler tables and a concrete request. -/
theorem handle_request_spec_witness :
    handle_request [("w".toList, .ret ⟨.reply, "w".toList, ["ok".toList]⟩)] []
        ⟨.request, "w".toList, []⟩ = some ⟨.reply, "w".toList, ["ok".toList]⟩ ∧
    handle_request [("w".toList, .failReply "boom".toList)] []
        ⟨.request, "w".toList, []⟩
        = some ⟨.reply, "w".toList, ["fail".toList, "boom".toList]⟩ ∧
    handle_request [("w".toList, .asyncReply)] [] ⟨.request, "w".toList, []⟩ = none ∧
    handle_request [("w".toList, .raised "tb".toList)] []
        ⟨.request, "w".toList, []⟩
        = some ⟨.reply, "w".toList, ["fail".toList, "tb".toList]⟩ ∧
    handle_request [] [] ⟨.request, "w".toList, []⟩
        = some ⟨.reply, "w".toList, ["invalid".toList, "Unknown request.".toList]⟩ :=
  ⟨(handle_request_spec _ _ _).1 _ (by decide) (by decide) (by decide),
   (handle_request_spec _ _ _).2.1 _ (by decide),
   (handle_request_spec _ _ _).2.2.1 (by decide),
   (handle_request_spec _ _ _).2.2.2.1 _ (by decide),
   (handle_request_spec _ _ _).2.2.2.2 (by decide)⟩

end Katcp

namespace Katcp

/-- Sensor statuses `UNKNOWN, NOMINAL, WARN, ERROR, FAILURE`. -/
inductive SStatus where
  | unknown
  | nominal
  | warn
  | error
  | failure
deriving DecidableEq, Repr

/-- The state of an INTEGER sensor: the `[min,max]` params fixed at
construction plus the mutable `_timestamp`, `_status`, `_value` triple
(timestamps modelled as integers; their values are irrelevant here). -/
structure IntSensor where
  vmin : Int
  vmax : Int
  timestamp : Int
  status : SStatus
  value : Int
deriving DecidableEq, Repr

/-- `Sensor.__init__` for an INTEGER sensor with params `[vmin, vmax]`: the
type's default value 0 is replaced by `vmin` when it does not lie within
`[vmin, vmax]`; an explicit `default` argument overrides the value without
any check. -/
def mkIntSensor (vmin vmax : Int) (now : Int) (default : Option Int) : IntSensor :=
  let v0 : Int := if vmin ≤ 0 ∧ 0 ≤ vmax then 0 else vmin
  let v1 := match default with
    | none => v0
    | some d => d
  ⟨vmin, vmax, now, .unknown, v1⟩

/-- `Sensor.set`: install the timestamp/status/value triple unconditionally,
then notify observers. No validation is performed. -/
def IntSensor.set (s : IntSensor) (timestamp : Int) (status : SStatus)
    (value : Int) : IntSensor :=
  { s with timestamp := timestamp, status := status, value := value }

/-- Modelled from the spec: `kattypes.Int.check` (the imported `kattypes.py`
is not part of the source tree) — numeric types carry an inclusive
`[min,max]` and `check` rejects out-of-range values. -/
def IntSensor.check (s : IntSensor) (v : Int) : Bool :=
  decide (s.vmin ≤ v) && decide (v ≤ s.vmax)

/-- `Sensor.set_value`: run the type's `check`, then `set` with the default
status NOMINAL; the `ValueError` raised on a failed check is modelled as
`none` (the sensor is left unchanged). -/
def IntSensor.set_value (s : IntSensor) (value : Int) (timestamp : Int) :
    Option IntSensor :=
  if s.check value then some (s.set timestamp .nominal value) else none

/-- Whether the stored value satisfies the sensor's `[min,max]` params. -/
def IntSensor.inRange (s : IntSensor) : Bool :=
  decide (s.vmin ≤ s.value) && decide (s.value ≤ s.vmax)

/-- C4 counterexample: the claim includes mutation through `set`, but
`Sensor.set` performs no validation — setting value 4 on an INTEGER sensor
with params [-4, 3] stores 4, violating the claimed range invariant. -/
theorem sensor_set_out_of_range :
    ((mkIntSensor (-4) 3 0 none).set 1 .nominal 4).value = 4 ∧
      ((mkIntSensor (-4) 3 0 none).set 1 .nominal 4).inRange = false := by
  decide

/-- The state of a FLOAT sensor: the same shape as `IntSensor` with the
`[min,max]` params and the value carried as rationals. Python floats enter
this claim only through order comparisons (`check` against the bounds),
which are exact, so an exact numeric field is a faithful carrier. -/
structure FloatSensor where
  vmin : ℚ
  vmax : ℚ
  timestamp : Int
  status : SStatus
  value : ℚ
deriving DecidableEq, Repr

/-- `Sensor.__init__` for a FLOAT sensor with params `[vmin, vmax]`: the
type's default value 0.0 is replaced by `vmin` when it does not lie within
`[vmin, vmax]`; an explicit `default` argument overrides the value without
any check. -/
def mkFloatSensor (vmin vmax : ℚ) (now : Int) (default : Option ℚ) :
    FloatSensor :=
  let v0 : ℚ := if vmin ≤ 0 ∧ 0 ≤ vmax then 0 else vmin
  let v1 := match default with
    | none => v0
    | some d => d
  ⟨vmin, vmax, now, .unknown, v1⟩

/-- `Sensor.set` on a FLOAT sensor: install the triple unconditionally. -/
def FloatSensor.set (s : FloatSensor) (timestamp : Int) (status : SStatus)
    (value : ℚ) : FloatSensor :=
  { s with timestamp := timestamp, status := status, value := value }

/-- Modelled from the spec: `kattypes.Float.check` (the imported
`kattypes.py` is not part of the source tree) — numeric types carry an
inclusive `[min,max]` and `check` rejects out-of-range values. -/
def FloatSensor.check (s : FloatSensor) (v : ℚ) : Bool :=
  decide (s.vmin ≤ v) && decide (v ≤ s.vmax)

/-- `Sensor.set_value` on a FLOAT sensor: `check`, then `set` with the
default status NOMINAL; a failed check raises, modelled as `none`. -/
def FloatSensor.set_value (s : FloatSensor) (value : ℚ) (timestamp : Int) :
    Option FloatSensor :=
  if s.check value then some (s.set timestamp .nominal value) else none

/-- Whether the stored value satisfies the FLOAT sensor's params. -/
def FloatSensor.inRange (s : FloatSensor) : Bool :=
  decide (s.vmin ≤ s.value) && decide (s.value ≤ s.vmax)

/-- C4 (amended). For an INTEGER or FLOAT sensor with params `[vmin, vmax]`:
construction without an explicit default (and with vmin ≤ vmax) yields an
in-range value; `set_value` is validated — it fails exactly on values
outside `[vmin, vmax]` (leaving the sensor unchanged, since no new state is
produced), and on success stores the given value, which is in range; in
particular `set_value 4` on an INTEGER [-4, 3] sensor fails and
`set_value 3` succeeds. Mutations through the unchecked `set` (and an
explicit construction default) are excluded. -/
theorem set_value_range (s : IntSensor) (v ts : Int)
    (f : FloatSensor) (q : ℚ) (qts : Int) :
    (∀ vmin vmax now : Int, vmin ≤ vmax →
      (mkIntSensor vmin vmax now none).inRange = true) ∧
    (s.set_value v ts = none ↔ ¬(s.vmin ≤ v ∧ v ≤ s.vmax)) ∧
    (∀ s', s.set_value v ts = some s' →
      s'.value = v ∧ s'.inRange = true ∧ s'.vmin = s.vmin ∧ s'.vmax = s.vmax) ∧
    (mkIntSensor (-4) 3 0 none).set_value 4 1 = none ∧
    (mkIntSensor (-4) 3 0 none).set_value 3 1 = some ⟨-4, 3, 1, .nominal, 3⟩ ∧
    (∀ vmin vmax : ℚ, ∀ now : Int, vmin ≤ vmax →
      (mkFloatSensor vmin vmax now none).inRange = true) ∧
    (f.set_value q qts = none ↔ ¬(f.vmin ≤ q ∧ q ≤ f.vmax)) ∧
    (∀ f', f.set_value q qts = some f' →
      f'.value = q ∧ f'.inRange = true ∧ f'.vmin = f.vmin ∧ f'.vmax = f.vmax) := by
  refine ⟨?_, ?_, ?_, by decide, by decide, ?_, ?_, ?_⟩
  · intro vmin vmax now hle
    by_cases h0 : vmin ≤ 0 ∧ 0 ≤ vmax
    · simp only [mkIntSensor, IntSensor.inRange, if_pos h0, Bool.and_eq_true,
        decide_eq_true_eq]
      exact ⟨h0.1, h0.2⟩
    · simp only [mkIntSensor, IntSensor.inRange, if_neg h0, Bool.and_eq_true,
        decide_eq_true_eq]
      exact ⟨le_refl vmin, hle⟩
  · unfold IntSensor.set_value IntSensor.check
    by_cases hc : s.vmin ≤ v ∧ v ≤ s.vmax
    · rw [if_pos (by simp [decide_eq_true_eq, hc.1, hc.2])]
      simp [hc]
    · rw [if_neg (by
        simp only [Bool.and_eq_true, decide_eq_true_eq]
        intro hcon
        exact hc hcon)]
      simp [hc]
  · intro s' hs
    unfold IntSensor.set_value IntSensor.check at hs
    by_cases hc : s.vmin ≤ v ∧ v ≤ s.vmax
    · rw [if_pos (by simp [decide_eq_true_eq, hc.1, hc.2])] at hs
      cases hs
      refine ⟨rfl, ?_, rfl, rfl⟩
      simp only [IntSensor.set, IntSensor.inRange, Bool.and_eq_true,
        decide_eq_true_eq]
      exact ⟨hc.1, hc.2⟩
    · rw [if_neg (by
        simp only [Bool.and_eq_true, decide_eq_true_eq]
        intro hcon
        exact hc hcon)] at hs
      exact absurd hs (by simp)
  · intro vmin vmax now hle
    by_cases h0 : vmin ≤ 0 ∧ 0 ≤ vmax
    · simp only [mkFloatSensor, FloatSensor.inRange, if_pos h0, Bool.and_eq_true,
        decide_eq_true_eq]
      exact ⟨h0.1, h0.2⟩
    · simp only [mkFloatSensor, FloatSensor.inRange, if_neg h0, Bool.and_eq_true,
        decide_eq_true_eq]
      exact ⟨le_refl vmin, hle⟩
  · unfold FloatSensor.set_value FloatSensor.check
    by_cases hc : f.vmin ≤ q ∧ q ≤ f.vmax
    · rw [if_pos (by simp [decide_eq_true_eq, hc.1, hc.2])]
      simp [hc]
    · rw [if_neg (by
        simp only [Bool.and_eq_true, decide_eq_true_eq]
        intro hcon
        exact hc hcon)]
      simp [hc]
  · intro f' hf
    unfold FloatSensor.set_value FloatSensor.check at hf
    by_cases hc : f.vmin ≤ q ∧ q ≤ f.vmax
    · rw [if_pos (by simp [decide_eq_true_eq, hc.1, hc.2])] at hf
      cases hf
      refine ⟨rfl, ?_, rfl, rfl⟩
      simp only [FloatSensor.set, FloatSensor.inRange, Bool.and_eq_true,
        decide_eq_true_eq]
      exact ⟨hc.1, hc.2⟩
    · rw [if_neg (by
        simp only [Bool.and_eq_true, decide_eq_true_eq]
        intro hcon
        exact hc hcon)] at hf
      exact absurd hf (by simp)

/-- Witness for C4 (amended) at the INTEGER sensor of the claim's example
and a FLOAT sensor with the same bounds. -/
theorem set_value_range_witness :
    (mkIntSensor (-4) 3 0 none).inRange = true ∧
    (mkIntSensor (-4) 3 0 none).set_value 4 1 = none ∧
    (mkIntSensor (-4) 3 0 none).set_value 3 1 = some ⟨-4, 3, 1, .nominal, 3⟩ ∧
    (⟨-4, 3, 1, .nominal, 3⟩ : IntSensor).inRange = true ∧
    (mkFloatSensor (-4) 3 0 none).inRange = true ∧
    (mkFloatSensor (-4) 3 0 none).set_value 4 1 = none ∧
    (⟨-4, 3, 1, .nominal, 3⟩ : FloatSensor).inRange = true :=
  ⟨(set_value_range (mkIntSensor (-4) 3 0 none) 4 1
      (mkFloatSensor (-4) 3 0 none) 4 1).1 (-4) 3 0 (by decide),
   (set_value_range (mkIntSensor (-4) 3 0 none) 4 1
      (mkFloatSensor (-4) 3 0 none) 4 1).2.2.2.1,
   (set_value_range (mkIntSensor (-4) 3 0 none) 3 1
      (mkFloatSensor (-4) 3 0 none) 3 1).2.2.2.2.1,
   ((set_value_range (mkIntSensor (-4) 3 0 none) 3 1
       (mkFloatSensor (-4) 3 0 none) 3 1).2.2.1 _
     (set_value_range (mkIntSensor (-4) 3 0 none) 3 1
       (mkFloatSensor (-4) 3 0 none) 3 1).2.2.2.2.1).2.1,
   (set_value_range (mkIntSensor (-4) 3 0 none) 4 1
      (mkFloatSensor (-4) 3 0 none) 4 1).2.2.2.2.2.1 (-4) 3 0 (by decide),
   (set_value_range (mkIntSensor (-4) 3 0 none) 4 1
      (mkFloatSensor (-4) 3 0 none) 4 1).2.2.2.2.2.2.1.mpr (by decide),
   ((set_value_range (mkIntSensor (-4) 3 0 none) 3 1
       (mkFloatSensor (-4) 3 0 none) 3 1).2.2.2.2.2.2.2
     ⟨-4, 3, 1, .nominal, 3⟩ (by decide)).2.1⟩

end Katcp

namespace Katcp

/-- Operations on one sensor as they affect an observer: `Sensor.attach`,
`Sensor.detach`, and a mutation through `Sensor.set` (which calls `notify`
exactly once). -/
inductive SensorOp where
  | attach (o : Nat)
  | detach (o : Nat)
  | setOp
deriving DecidableEq, Repr

/-- `Sensor._observers` is a Python `set`: `attach` is `set.add` (no
duplicate is created) and `detach` is `set.discard` (idempotent). -/
def stepObservers (obs : List Nat) : SensorOp → List Nat
  | .attach o => if o ∈ obs then obs else o :: obs
  | .detach o => obs.erase o
  | .setOp => obs

/-- `Sensor.notify` iterates over a copy of the observer set calling
`update(self)` on each member, so one `set` delivers to observer `o` as
many update calls as `o` occurs in the set; this accumulates the total over
a run of operations. -/
def runUpdates (o : Nat) : List Nat → List SensorOp → Nat
  | _, [] => 0
  | obs, op :: ops =>
    (match op with
     | .setOp => obs.count o
     | _ => 0) + runUpdates o (stepObservers obs op) ops

/-- Claim side: the number of `set` calls issued while observer `o` is
attached. -/
def setsWhileAttached (o : Nat) : List Nat → List SensorOp → Nat
  | _, [] => 0
  | obs, op :: ops =>
    (match op with
     | .setOp => if o ∈ obs then 1 else 0
     | _ => 0) + setsWhileAttached o (stepObservers obs op) ops

/-- One notification round over the snapshot `list(self._observers)`: thread
the live observer set through each callback (which may attach or detach)
and record which observers' `update` ran. -/
def notifyAux (react : Nat → List Nat → List Nat) :
    List Nat → List Nat → List Nat × List Nat
  | [], obs => (obs, [])
  | o :: rest, obs =>
    let step := notifyAux react rest (react o obs)
    (step.1, o :: step.2)

/-- `Sensor.notify`: take the snapshot at entry, then run the round. -/
def notifyRound (react : Nat → List Nat → List Nat) (obs : List Nat) :
    List Nat × List Nat :=
  notifyAux react obs obs

theorem stepObservers_nodup {obs : List Nat} (h : obs.Nodup) (op : SensorOp) :
    (stepObservers obs op).Nodup := by
  cases op with
  | attach o =>
    by_cases ho : o ∈ obs
    · simpa [stepObservers, ho] using h
    · rw [show stepObservers obs (.attach o) = o :: obs by simp [stepObservers, ho]]
      exact List.nodup_cons.mpr ⟨ho, h⟩
  | detach o => exact h.erase o
  | setOp => exact h

theorem notifyAux_calls (react : Nat → List Nat → List Nat) :
    ∀ snapshot obs, (notifyAux react snapshot obs).2 = snapshot
  | [], _ => rfl
  | o :: rest, obs => by
    rw [notifyAux]
    simp only [List.cons.injEq, true_and]
    exact notifyAux_calls react rest (react o obs)

theorem runUpdates_eq_setsWhileAttached (o : Nat) :
    ∀ (ops : List SensorOp) (obs : List Nat), obs.Nodup →
      runUpdates o obs ops = setsWhileAttached o obs ops
  | [], _, _ => rfl
  | op :: ops, obs, h => by
    have ih := runUpdates_eq_setsWhileAttached o ops (stepObservers obs op)
      (stepObservers_nodup h op)
    cases op with
    | attach a =>
      simp only [runUpdates, setsWhileAttached] at ih ⊢
      rw [ih]
    | detach a =>
      simp only [runUpdates, setsWhileAttached] at ih ⊢
      rw [ih]
    | setOp =>
      simp only [runUpdates, setsWhileAttached, stepObservers] at ih ⊢
      rw [ih]
      congr 1
      by_cases ho : o ∈ obs
      · rw [if_pos ho]
        exact List.count_eq_one_of_mem h ho
      · rw [if_neg ho]
        exact List.count_eq_zero_of_not_mem ho

/-- C5. Observer notification count: starting from a duplicate-free
observer set, over any sequence of attach/detach/set operations observer
`o` receives exactly one `update` per `set` issued while it is attached and
none while it is detached — its total equals the number of `set` calls
during its attached intervals; moreover one notification round calls
exactly the snapshot of the observer set taken at its start, whatever
attaches or detaches the update callbacks perform mid-round. -/
theorem observer_update_count (o : Nat) (obs : List Nat) (ops : List SensorOp)
    (react : Nat → List Nat → List Nat) (h : obs.Nodup) :
    runUpdates o obs ops = setsWhileAttached o obs ops ∧
    (notifyRound react obs).2 = obs :=
  ⟨runUpdates_eq_setsWhileAttached o ops obs h,
   notifyAux_calls react obs obs⟩

/-- Witness for C5: an attach/set/set/detach/set run in which observer 1
receives exactly the two updates issued while attached, and a concrete
round whose callbacks detach observers yet still calls the full snapshot. -/
theorem observer_update_count_witness :
    (runUpdates 1 [] [.attach 1, .setOp, .setOp, .detach 1, .setOp]
      = setsWhileAttached 1 [] [.attach 1, .setOp, .setOp, .detach 1, .setOp]) ∧
    (notifyRound (fun a l => l.erase a) [1, 2, 3]).2 = [1, 2, 3] :=
  ⟨(observer_update_count 1 [] [.attach 1, .setOp, .setOp, .detach 1, .setOp]
      (fun a l => l.erase a) (by decide)).1,
   (observer_update_count 1 [1, 2, 3] [] (fun a l => l.erase a) (by decide)).2⟩

end Katcp

namespace Katcp

/-- Server-side sampling administration: `self._strategies` flattened to an
association list keyed by (client socket, sensor), with strategy objects
identified by creation order (`SampleStrategy.get_strategy` builds a fresh
object on every call — `nextId` is the next fresh identity), plus the
reactor's list of installed strategies. -/
structure SamplingState where
  strategies : List ((Nat × Nat) × Nat)
  reactor : List Nat
  nextId : Nat
deriving DecidableEq, Repr

/-- `self._strategies[sock].get(sensor, None)`. -/
def lookupPair (k : Nat × Nat) : List ((Nat × Nat) × Nat) → Option Nat
  | [] => none
  | (k', v) :: rest => if k' = k then some v else lookupPair k rest

/-- Removal of a key (`del self._strategies[sock][sensor]`). -/
def removePair (k : Nat × Nat) (l : List ((Nat × Nat) × Nat)) :
    List ((Nat × Nat) × Nat) :=
  l.filter (fun e => decide (e.1 ≠ k))

/-- Keyed assignment (`self._strategies[sock][sensor] = new_strategy`). -/
def setPair (k : Nat × Nat) (v : Nat) (l : List ((Nat × Nat) × Nat)) :
    List ((Nat × Nat) × Nat) :=
  (k, v) :: removePair k l

/-- The strategy identities installed in the map. -/
def mappedIds (st : SamplingState) : List Nat :=
  st.strategies.map (fun e => e.2)

/-- The strategy identities belonging to one client. -/
def clientIds (st : SamplingState) (c : Nat) : List Nat :=
  (st.strategies.filter (fun e => decide (e.1.1 = c))).map (fun e => e.2)

/-- The install path of `DeviceServer.request_sensor_sampling` (a request
`?sensor-sampling <name> <strategy> ...` whose strategy construction
succeeded): build the fresh strategy, remove the previously installed
strategy for this (client, sensor) from the reactor if there is one, then
either drop the map entry (for a `SampleNone` strategy, which is not added
to the reactor) or store the new strategy and add it to the reactor. -/
def installStep (st : SamplingState) (c s : Nat) (isNone : Bool) : SamplingState :=
  let newId := st.nextId
  let reactor1 := match lookupPair (c, s) st.strategies with
    | some old => st.reactor.erase old
    | none => st.reactor
  if isNone then
    { strategies := removePair (c, s) st.strategies,
      reactor := reactor1,
      nextId := newId + 1 }
  else
    { strategies := setPair (c, s) newId st.strategies,
      reactor := newId :: reactor1,
      nextId := newId + 1 }

/-- `DeviceServer.on_client_disconnect`: delete all of this client's map
entries and remove each of its strategies from the reactor. -/
def disconnectStep (st : SamplingState) (c : Nat) : SamplingState :=
  { strategies := st.strategies.filter (fun e => decide (e.1.1 ≠ c)),
    reactor := (clientIds st c).foldl (fun r i => r.erase i) st.reactor,
    nextId := st.nextId }

/-- The sampling-administration events: a successful strategy installation
and a client disconnect. -/
inductive SamplingOp where
  | install (c s : Nat) (isNone : Bool)
  | disconnect (c : Nat)
deriving DecidableEq, Repr

def stepSampling (st : SamplingState) : SamplingOp → SamplingState
  | .install c s b => installStep st c s b
  | .disconnect c => disconnectStep st c

def runSampling : List SamplingOp → SamplingState → SamplingState
  | [], st => st
  | op :: ops, st => runSampling ops (stepSampling st op)

/-- The sampling-administration invariant: at most one strategy per
(client, sensor) key; the reactor holds no duplicates; strategy identities
are pairwise distinct; the reactor holds exactly the strategies installed
in the map; all identities are below the freshness bound. -/
def samplingInv (st : SamplingState) : Prop :=
  (st.strategies.map (fun e => e.1)).Nodup ∧
  st.reactor.Nodup ∧
  (mappedIds st).Nodup ∧
  (∀ i, i ∈ st.reactor ↔ i ∈ mappedIds st) ∧
  (∀ e ∈ st.strategies, e.2 < st.nextId)

theorem lookupPair_mem {k : Nat × Nat} {v : Nat} :
    ∀ {l : List ((Nat × Nat) × Nat)}, lookupPair k l = some v → (k, v) ∈ l
  | [], h => by simp [lookupPair] at h
  | (k', v') :: rest, h => by
    rw [lookupPair] at h
    by_cases hk : k' = k
    · rw [if_pos hk] at h
      cases h
      subst hk
      exact List.mem_cons_self _ _
    · rw [if_neg hk] at h
      exact List.mem_cons_of_mem _ (lookupPair_mem h)

theorem lookupPair_none {k : Nat × Nat} :
    ∀ {l : List ((Nat × Nat) × Nat)}, lookupPair k l = none →
      ∀ v, (k, v) ∉ l
  | [], _, v => List.not_mem_nil _
  | (k', v') :: rest, h, v => by
    rw [lookupPair] at h
    by_cases hk : k' = k
    · rw [if_pos hk] at h
      exact absurd h (by simp)
    · rw [if_neg hk] at h
      intro hmem
      rcases List.mem_cons.mp hmem with heq | hmem'
      · exact hk (congrArg Prod.fst heq).symm
      · exact lookupPair_none h v hmem'

theorem foldl_erase_nodup {del : List Nat} :
    ∀ {r : List Nat}, r.Nodup → (del.foldl (fun r i => r.erase i) r).Nodup := by
  induction del with
  | nil => intro r h; exact h
  | cons a del ih => intro r h; exact ih (h.erase a)

theorem mem_foldl_erase {del : List Nat} :
    ∀ {r : List Nat}, r.Nodup → ∀ i,
      (i ∈ del.foldl (fun r i => r.erase i) r ↔ i ∈ r ∧ i ∉ del) := by
  induction del with
  | nil => intro r _ i; simp
  | cons a del ih =>
    intro r h i
    rw [List.foldl_cons, ih (h.erase a) i, h.mem_erase_iff]
    constructor
    · rintro ⟨⟨hne, hr⟩, hnd⟩
      exact ⟨hr, by simp [hne, hnd]⟩
    · rintro ⟨hr, hnd⟩
      simp only [List.mem_cons, not_or] at hnd
      exact ⟨⟨hnd.1, hr⟩, hnd.2⟩

end Katcp

namespace Katcp

theorem mem_removePair_ids {l : List ((Nat × Nat) × Nat)}
    (hkeys : (l.map (fun e => e.1)).Nodup)
    (hids : (l.map (fun e => e.2)).Nodup) {k : Nat × Nat} {old : Nat}
    (hmem : (k, old) ∈ l) (i : Nat) :
    i ∈ (removePair k l).map (fun e => e.2)
      ↔ i ≠ old ∧ i ∈ l.map (fun e => e.2) := by
  unfold removePair
  constructor
  · intro hi
    rcases List.mem_map.mp hi with ⟨e, hef, rfl⟩
    obtain ⟨hel, hpred⟩ := List.mem_filter.mp hef
    simp only [decide_eq_true_eq] at hpred
    refine ⟨?_, List.mem_map.mpr ⟨e, hel, rfl⟩⟩
    intro hio
    have heq : e = (k, old) :=
      List.inj_on_of_nodup_map hids hel hmem hio
    exact hpred (by rw [heq])
  · rintro ⟨hio, hi⟩
    rcases List.mem_map.mp hi with ⟨e, hel, rfl⟩
    refine List.mem_map.mpr ⟨e, List.mem_filter.mpr ⟨hel, ?_⟩, rfl⟩
    simp only [decide_eq_true_eq]
    intro hek
    have heq : e = (k, old) :=
      List.inj_on_of_nodup_map hkeys hel hmem (by simpa using hek)
    exact hio (by rw [heq])

theorem installStep_inv {st : SamplingState} (h : samplingInv st) (c s : Nat)
    (b : Bool) : samplingInv (installStep st c s b) := by
  obtain ⟨hkeys, hreac, hids, hiff, hbound⟩ := h
  have hkeysF : ((removePair (c, s) st.strategies).map (fun e => e.1)).Nodup :=
    hkeys.sublist ((List.filter_sublist st.strategies).map _)
  have hidsF : ((removePair (c, s) st.strategies).map (fun e => e.2)).Nodup :=
    hids.sublist ((List.filter_sublist st.strategies).map _)
  have hkeyNotF : (c, s) ∉ (removePair (c, s) st.strategies).map (fun e => e.1) := by
    intro hin
    rcases List.mem_map.mp hin with ⟨e, hef, hk⟩
    obtain ⟨-, hpred⟩ := List.mem_filter.mp hef
    simp only [decide_eq_true_eq] at hpred
    exact hpred hk
  have hFsub : ∀ i, i ∈ (removePair (c, s) st.strategies).map (fun e => e.2) →
      i ∈ mappedIds st := by
    intro i hin
    rcases List.mem_map.mp hin with ⟨e, hef, rfl⟩
    exact List.mem_map.mpr ⟨e, (List.mem_filter.mp hef).1, rfl⟩
  have hFbound : ∀ e ∈ removePair (c, s) st.strategies, e.2 < st.nextId :=
    fun e hef => hbound e (List.mem_filter.mp hef).1
  have hNewNotIds : st.nextId ∉ mappedIds st := by
    intro hin
    rcases List.mem_map.mp hin with ⟨e, hel, he2⟩
    exact absurd (he2 ▸ hbound e hel) (lt_irrefl _)
  cases hl : lookupPair (c, s) st.strategies with
  | none =>
    have hfid : removePair (c, s) st.strategies = st.strategies := by
      unfold removePair
      rw [List.filter_eq_self]
      intro e he
      simp only [decide_eq_true_eq]
      intro hek
      exact lookupPair_none hl e.2 (by rw [← hek]; simpa using he)
    cases b
    · -- a real strategy: stored in the map and added to the reactor
      simp only [installStep, hl, Bool.false_eq_true, if_false]
      refine ⟨?_, ?_, ?_, ?_, ?_⟩
      · rw [setPair, List.map_cons, hfid]
        exact List.nodup_cons.mpr ⟨by rw [← hfid]; exact hkeyNotF, hkeys⟩
      · refine List.nodup_cons.mpr ⟨?_, hreac⟩
        intro hin
        exact hNewNotIds ((hiff _).mp hin)
      · rw [mappedIds, setPair, List.map_cons, hfid]
        exact List.nodup_cons.mpr ⟨hNewNotIds, hids⟩
      · intro i
        rw [mappedIds, setPair, List.map_cons, hfid, List.mem_cons, List.mem_cons]
        exact or_congr Iff.rfl (hiff i)
      · intro e he
        rw [setPair, hfid] at he
        rcases List.mem_cons.mp he with rfl | he'
        · exact Nat.lt_succ_self _
        · exact Nat.lt_succ_of_lt (hbound e he')
    · -- SampleNone: entry dropped, nothing added to the reactor
      simp only [installStep, hl, if_true]
      refine ⟨?_, hreac, ?_, ?_, ?_⟩
      · exact hkeysF
      · exact hidsF
      · intro i
        rw [show mappedIds ⟨removePair (c, s) st.strategies, st.reactor, st.nextId + 1⟩
            = (removePair (c, s) st.strategies).map (fun e => e.2) from rfl]
        rw [hfid]
        exact hiff i
      · intro e he
        exact Nat.lt_succ_of_lt (hFbound e he)
  | some old =>
    have hmem : ((c, s), old) ∈ st.strategies := lookupPair_mem hl
    have hoito : old ∈ mappedIds st := List.mem_map.mpr ⟨_, hmem, rfl⟩
    have herMem : ∀ i, i ∈ st.reactor.erase old
        ↔ i ≠ old ∧ i ∈ st.strategies.map (fun e => e.2) := by
      intro i
      rw [hreac.mem_erase_iff]
      exact and_congr Iff.rfl (hiff i)
    cases b
    · simp only [installStep, hl, Bool.false_eq_true, if_false]
      refine ⟨?_, ?_, ?_, ?_, ?_⟩
      · rw [setPair, List.map_cons]
        exact List.nodup_cons.mpr ⟨hkeyNotF, hkeysF⟩
      · refine List.nodup_cons.mpr ⟨?_, hreac.erase old⟩
        intro hin
        exact hNewNotIds ((herMem _).mp hin).2
      · rw [mappedIds, setPair, List.map_cons]
        refine List.nodup_cons.mpr ⟨?_, hidsF⟩
        intro hin
        exact hNewNotIds (hFsub _ hin)
      · intro i
        rw [mappedIds, setPair, List.map_cons, List.mem_cons, List.mem_cons]
        refine or_congr Iff.rfl ?_
        rw [herMem i, mem_removePair_ids hkeys hids hmem i]
      · intro e he
        rw [setPair] at he
        rcases List.mem_cons.mp he with rfl | he'
        · exact Nat.lt_succ_self _
        · exact Nat.lt_succ_of_lt (hFbound e he')
    · simp only [installStep, hl, if_true]
      refine ⟨hkeysF, hreac.erase old, hidsF, ?_, ?_⟩
      · intro i
        rw [show mappedIds ⟨removePair (c, s) st.strategies, st.reactor.erase old, st.nextId + 1⟩
            = (removePair (c, s) st.strategies).map (fun e => e.2) from rfl]
        rw [herMem i, mem_removePair_ids hkeys hids hmem i]
      · intro e he
        exact Nat.lt_succ_of_lt (hFbound e he)

end Katcp

namespace Katcp

theorem lookupPair_none_of (k : Nat × Nat) :
    ∀ l : List ((Nat × Nat) × Nat), (∀ e ∈ l, e.1 ≠ k) → lookupPair k l = none
  | [], _ => rfl
  | (k', v') :: rest, h => by
    rw [lookupPair,
      if_neg (h (k', v') (List.mem_cons_self _ _)),
      lookupPair_none_of k rest (fun e he => h e (List.mem_cons_of_mem _ he))]

theorem disconnectStep_inv {st : SamplingState} (h : samplingInv st) (c : Nat) :
    samplingInv (disconnectStep st c) := by
  obtain ⟨hkeys, hreac, hids, hiff, hbound⟩ := h
  refine ⟨?_, ?_, ?_, ?_, ?_⟩
  · exact hkeys.sublist ((List.filter_sublist st.strategies).map _)
  · exact foldl_erase_nodup hreac
  · exact hids.sublist ((List.filter_sublist st.strategies).map _)
  · intro i
    show i ∈ (clientIds st c).foldl (fun r i => r.erase i) st.reactor ↔ _
    rw [mem_foldl_erase hreac i]
    constructor
    · rintro ⟨hr, hnc⟩
      rcases List.mem_map.mp ((hiff i).mp hr) with ⟨e, hel, rfl⟩
      refine List.mem_map.mpr ⟨e, List.mem_filter.mpr ⟨hel, ?_⟩, rfl⟩
      simp only [decide_eq_true_eq]
      intro hc
      exact hnc (List.mem_map.mpr ⟨e, List.mem_filter.mpr ⟨hel, by simp [hc]⟩, rfl⟩)
    · intro hin
      rcases List.mem_map.mp hin with ⟨e, hef, rfl⟩
      obtain ⟨hel, hpred⟩ := List.mem_filter.mp hef
      simp only [decide_eq_true_eq] at hpred
      refine ⟨(hiff e.2).mpr (List.mem_map.mpr ⟨e, hel, rfl⟩), ?_⟩
      intro hcid
      rcases List.mem_map.mp hcid with ⟨e', he'f, he'2⟩
      obtain ⟨he'l, he'pred⟩ := List.mem_filter.mp he'f
      simp only [decide_eq_true_eq] at he'pred
      have heq : e' = e := List.inj_on_of_nodup_map hids he'l hel he'2
      exact hpred (by rw [← heq]; exact he'pred)
  · intro e he
    exact hbound e (List.mem_filter.mp he).1

theorem stepSampling_inv {st : SamplingState} (h : samplingInv st)
    (op : SamplingOp) : samplingInv (stepSampling st op) := by
  cases op with
  | install c s b => exact installStep_inv h c s b
  | disconnect c => exact disconnectStep_inv h c

theorem runSampling_inv :
    ∀ (ops : List SamplingOp) (st : SamplingState),
      samplingInv st → samplingInv (runSampling ops st)
  | [], _, h => h
  | op :: ops, _, h => runSampling_inv ops _ (stepSampling_inv h op)

theorem samplingInv_init : samplingInv ⟨[], [], 0⟩ :=
  ⟨List.nodup_nil, List.nodup_nil, List.nodup_nil,
   fun i => by simp [mappedIds],
   fun e he => absurd he (List.not_mem_nil e)⟩

/-- C6. Strategy uniqueness invariant: from a fresh server, after any
sequence of successful strategy installations and client disconnects, the
invariant holds — at most one strategy per (client, sensor) pair, and the
reactor holds exactly the installed strategies; moreover installing a new
strategy for a pair that already has one removes the previous strategy from
the reactor, a disconnect leaves the client with no installed strategies,
and every strategy the client owned is gone from the reactor. -/
theorem strategy_uniqueness (ops : List SamplingOp) :
    samplingInv (runSampling ops ⟨[], [], 0⟩) ∧
    (∀ c s b old,
      lookupPair (c, s) (runSampling ops ⟨[], [], 0⟩).strategies = some old →
      old ∉ (installStep (runSampling ops ⟨[], [], 0⟩) c s b).reactor) ∧
    (∀ c s,
      lookupPair (c, s)
        (disconnectStep (runSampling ops ⟨[], [], 0⟩) c).strategies = none) ∧
    (∀ c old, old ∈ clientIds (runSampling ops ⟨[], [], 0⟩) c →
      old ∉ (disconnectStep (runSampling ops ⟨[], [], 0⟩) c).reactor) := by
  have hinv := runSampling_inv ops ⟨[], [], 0⟩ samplingInv_init
  obtain ⟨hkeys, hreac, hids, hiff, hbound⟩ := hinv
  refine ⟨⟨hkeys, hreac, hids, hiff, hbound⟩, ?_, ?_, ?_⟩
  · intro c s b old hl
    have hmem : ((c, s), old) ∈ (runSampling ops ⟨[], [], 0⟩).strategies :=
      lookupPair_mem hl
    have hlt : old < (runSampling ops ⟨[], [], 0⟩).nextId := hbound _ hmem
    unfold installStep
    rw [hl]
    cases b
    · simp only [Bool.false_eq_true, if_false]
      intro hin
      rcases List.mem_cons.mp hin with heq | hin'
      · exact absurd (heq ▸ hlt) (lt_irrefl _)
      · exact hreac.not_mem_erase hin'
    · simp only [if_true]
      exact hreac.not_mem_erase
  · intro c s
    apply lookupPair_none_of
    intro e he
    obtain ⟨-, hpred⟩ := List.mem_filter.mp he
    simp only [decide_eq_true_eq] at hpred
    intro hk
    exact hpred (by rw [hk])
  · intro c old hcid
    show old ∉ (clientIds (runSampling ops ⟨[], [], 0⟩) c).foldl
      (fun r i => r.erase i) (runSampling ops ⟨[], [], 0⟩).reactor
    rw [mem_foldl_erase hreac old]
    rintro ⟨-, hnot⟩
    exact hnot hcid

/-- Witness for C6: one concrete installation followed by the checks that
replacement and disconnect detach the strategy with identity 0. -/
theorem strategy_uniqueness_witness :
    (∀ i, i ∈ (runSampling [.install 0 5 false] ⟨[], [], 0⟩).reactor ↔
      i ∈ mappedIds (runSampling [.install 0 5 false] ⟨[], [], 0⟩)) ∧
    0 ∉ (installStep (runSampling [.install 0 5 false] ⟨[], [], 0⟩) 0 5 false).reactor ∧
    lookupPair (0, 5)
      (disconnectStep (runSampling [.install 0 5 false] ⟨[], [], 0⟩) 0).strategies
      = none ∧
    0 ∉ (disconnectStep (runSampling [.install 0 5 false] ⟨[], [], 0⟩) 0).reactor :=
  ⟨(strategy_uniqueness [.install 0 5 false]).1.2.2.2.1,
   (strategy_uniqueness [.install 0 5 false]).2.1 0 5 false 0 (by decide),
   (strategy_uniqueness [.install 0 5 false]).2.2.1 0 5,
   (strategy_uniqueness [.install 0 5 false]).2.2.2 0 0 (by decide)⟩

end Katcp

namespace Katcp

/-- Modelled from the spec: a sampling strategy as its
`get_sampling_formatted` reports it — the strategy kind name and formatted
params (`sampling.py` is imported but absent from the source tree); a
`SampleNone` formats as kind `none` with no params. -/
structure StratInfo where
  kind : List Char
  params : List (List Char)
deriving DecidableEq, Repr

/-- Modelled from the spec: membership in
`SampleStrategy.SAMPLING_LOOKUP_REV` — the known strategy names are
{none, auto, event, differential, period}. -/
def knownStrategy (s : List Char) : Bool :=
  decide (s = "none".toList) || decide (s = "auto".toList) ||
  decide (s = "event".toList) || decide (s = "differential".toList) ||
  decide (s = "period".toList)

/-- The outcomes of `DeviceServer.request_sensor_sampling`: a returned
reply, a `FailReply` with a reason, or a `ValueError` from
`SampleStrategy.get_strategy` that escapes to the generic handler. -/
inductive SamplingResult where
  | reply (m : Message)
  | failReason (r : List Char)
  | raisedValueError
deriving DecidableEq, Repr

/-- `DeviceServer.request_sensor_sampling` as it computes its outcome for
one client: `sensors` is the registered sensor-name list, `installed` the
client's current strategy map (by sensor name), and `construct` abstracts
`SampleStrategy.get_strategy` (modelled from the spec: it either builds a
strategy or raises `ValueError` on bad params, here `none`). After a
successful install the reply reports the now-current strategy; a
`SampleNone` install leaves no entry, so the current strategy is a fresh
`SampleNone` formatting as `none` with no params. -/
def request_sensor_sampling (sensors : List (List Char))
    (installed : List Char → Option StratInfo)
    (construct : List Char → List (List Char) → Option StratInfo)
    (args : List (List Char)) : SamplingResult :=
  match args with
  | [] => .failReason "No sensor name given.".toList
  | name :: rest =>
    if name ∈ sensors then
      match rest with
      | [] =>
        match installed name with
        | some info =>
          .reply ⟨.reply, "sensor-sampling".toList,
            "ok".toList :: name :: info.kind :: info.params⟩
        | none =>
          .reply ⟨.reply, "sensor-sampling".toList,
            ["ok".toList, name, "none".toList]⟩
      | strategy :: params =>
        if knownStrategy strategy then
          match construct strategy params with
          | none => .raisedValueError
          | some newInfo =>
            if newInfo.kind = "none".toList then
              .reply ⟨.reply, "sensor-sampling".toList,
                ["ok".toList, name, "none".toList]⟩
            else
              .reply ⟨.reply, "sensor-sampling".toList,
                "ok".toList :: name :: newInfo.kind :: newInfo.params⟩
        else .failReason "Unknown strategy name.".toList
    else .failReason "Unknown sensor name.".toList

/-- C7. Sensor-sampling query: with the strategy argument omitted, the
reply reports the installed strategy and its params, or
`!sensor-sampling ok <name> none` when none is installed; an unregistered
sensor name fails with "Unknown sensor name." (whatever follows it), and an
unknown strategy name fails with "Unknown strategy name.". -/
theorem sensor_sampling_query (sensors : List (List Char))
    (installed : List Char → Option StratInfo)
    (construct : List Char → List (List Char) → Option StratInfo)
    (name : List Char) (rest : List (List Char)) :
    (name ∈ sensors → installed name = none →
      request_sensor_sampling sensors installed construct [name]
        = .reply ⟨.reply, "sensor-sampling".toList,
            ["ok".toList, name, "none".toList]⟩) ∧
    (∀ k ps, name ∈ sensors → installed name = some ⟨k, ps⟩ →
      request_sensor_sampling sensors installed construct [name]
        = .reply ⟨.reply, "sensor-sampling".toList,
            "ok".toList :: name :: k :: ps⟩) ∧
    (name ∉ sensors →
      request_sensor_sampling sensors installed construct (name :: rest)
        = .failReason "Unknown sensor name.".toList) ∧
    (∀ strategy params, name ∈ sensors → knownStrategy strategy = false →
      request_sensor_sampling sensors installed construct
          (name :: strategy :: params)
        = .failReason "Unknown strategy name.".toList) := by
  refine ⟨?_, ?_, ?_, ?_⟩
  · intro hs hi
    unfold request_sensor_sampling
    dsimp only
    rw [if_pos hs, hi]
  · intro k ps hs hi
    unfold request_sensor_sampling
    dsimp only
    rw [if_pos hs, hi]
  · intro hs
    unfold request_sensor_sampling
    dsimp only
    rw [if_neg hs]
  · intro strategy params hs hk
    unfold request_sensor_sampling
    dsimp only
    rw [if_pos hs, if_neg (by rw [hk]; exact Bool.false_ne_true)]

/-- Witness for C7 at the sensor name `an.int` of the spec's examples, with
no strategy installed, then with a `period 500` strategy installed, then
the two failure modes. -/
theorem sensor_sampling_query_witness :
    request_sensor_sampling ["an.int".toList] (fun _ => none) (fun _ _ => none)
        ["an.int".toList]
      = .reply ⟨.reply, "sensor-sampling".toList,
          ["ok".toList, "an.int".toList, "none".toList]⟩ ∧
    request_sensor_sampling ["an.int".toList]
        (fun n => if n = "an.int".toList
          then some ⟨"period".toList, ["500".toList]⟩ else none)
        (fun _ _ => none) ["an.int".toList]
      = .reply ⟨.reply, "sensor-sampling".toList,
          ["ok".toList, "an.int".toList, "period".toList, "500".toList]⟩ ∧
    request_sensor_sampling ["an.int".toList] (fun _ => none) (fun _ _ => none)
        ["nonesuch".toList, "none".toList]
      = .failReason "Unknown sensor name.".toList ∧
    request_sensor_sampling ["an.int".toList] (fun _ => none) (fun _ _ => none)
        ["an.int".toList, "random".toList]
      = .failReason "Unknown strategy name.".toList :=
  ⟨(sensor_sampling_query _ _ _ "an.int".toList []).1 (by decide) rfl,
   (sensor_sampling_query _ _ _ "an.int".toList []).2.1 "period".toList
     ["500".toList] (by decide) (by decide),
   (sensor_sampling_query _ _ _ "nonesuch".toList ["none".toList]).2.2.1
     (by decide),
   (sensor_sampling_query _ _ _ "an.int".toList []).2.2.2 "random".toList []
     (by decide) (by decide)⟩

end Katcp

namespace Katcp

/-- `chunk.replace("\r", "\n")`. -/
def normalizeCRLF (chunk : List Char) : List Char :=
  chunk.map (fun c => if c = '\x0d' then '\n' else c)

/-- `s.split("\n")`: the fields between LFs, keeping empty fields (the
split of the empty string is one empty field). -/
def splitLF : List Char → List (List Char)
  | [] => [[]]
  | c :: cs =>
    let rest := splitLF cs
    if c = '\n' then [] :: rest
    else (c :: rest.headD []) :: rest.tail

/-- The externally visible effects of `handle_chunk` on one line: a parsed
message dispatched to `handle_message`, or a `#log error` inform sent to
the originating client for a line the parser rejected. -/
inductive ChunkEvent where
  | dispatched (m : Message)
  | logErrorInform
deriving DecidableEq, Repr

/-- What one completed line produces when fed to the codec. -/
def feedLine (l : List Char) : ChunkEvent :=
  match parse l with
  | some m => .dispatched m
  | none => .logErrorInform

/-- The loop of `handle_chunk` over `lines[:-1]` threading `waiting_chunk`
(which is reset to empty after the first iteration), skipping empty
combined lines (`if full_line:`), and the final buffer assignment
`waiting_chunk + lines[-1]`. -/
def processLines : List Char → List (List Char) → List ChunkEvent × List Char
  | waiting, [] => ([], waiting)
  | waiting, [last] => ([], waiting ++ last)
  | waiting, l :: l2 :: ls =>
    let full := waiting ++ l
    let evs : List ChunkEvent := if full.isEmpty then [] else [feedLine full]
    let step := processLines [] (l2 :: ls)
    (evs ++ step.1, step.2)

/-- `DeviceServerBase.handle_chunk` for one client whose retained partial
buffer is `buffer`: replace CR with LF in the chunk, split it on LF,
process every completed line with the old buffer prepended to the first,
and retain the final unfinished tail as the new buffer. -/
def handle_chunk (buffer chunk : List Char) : List ChunkEvent × List Char :=
  processLines buffer (splitLF (normalizeCRLF chunk))

/-- Claim side: split the concatenation of the retained buffer and the
normalized chunk on LF, feed EVERY completed field to the codec (a parse
failure sends a `#log error` inform, a success is dispatched), and retain
the final field as the new buffer. -/
def chunkSpec (buffer chunk : List Char) : List ChunkEvent × List Char :=
  ((splitLF (buffer ++ normalizeCRLF chunk)).dropLast.map feedLine,
   ((splitLF (buffer ++ normalizeCRLF chunk)).getLast?).getD [])

/-- Claim side as amended: identical except that empty completed fields are
discarded without being fed to the codec. -/
def chunkSpecNE (buffer chunk : List Char) : List ChunkEvent × List Char :=
  (((splitLF (buffer ++ normalizeCRLF chunk)).dropLast.filter
      (fun l => !l.isEmpty)).map feedLine,
   ((splitLF (buffer ++ normalizeCRLF chunk)).getLast?).getD [])

/-- C8 counterexample: on the chunk `"\n"` with an empty retained buffer the
completed field is empty; `handle_chunk` skips it silently
(`if full_line:`), while the claim's behaviour feeds it to the codec, which
rejects it and sends a `#log error` inform. -/
theorem handle_chunk_empty_field :
    handle_chunk [] ['\n'] = ([], []) ∧
    chunkSpec [] ['\n'] = ([ChunkEvent.logErrorInform], []) ∧
    ¬ handle_chunk [] ['\n'] = chunkSpec [] ['\n'] := by
  decide

end Katcp

namespace Katcp

theorem splitLF_ne_nil : ∀ l : List Char, splitLF l ≠ []
  | [] => by simp [splitLF]
  | c :: cs => by
    rw [splitLF]
    by_cases hc : c = '\n' <;> simp [hc]

theorem splitLF_append {a : List Char} (ha : '\n' ∉ a) :
    ∀ b : List Char, splitLF (a ++ b)
      = (a ++ (splitLF b).headD []) :: (splitLF b).tail := by
  induction a with
  | nil =>
    intro b
    rcases hb : splitLF b with _ | ⟨h, t⟩
    · exact absurd hb (splitLF_ne_nil b)
    · simp [hb]
  | cons c a' ih =>
    intro b
    have hc : ¬ c = '\n' := fun h => ha (h ▸ List.mem_cons_self c a')
    have ha' : '\n' ∉ a' := fun h => ha (List.mem_cons_of_mem c h)
    rw [List.cons_append, splitLF]
    simp only [if_neg hc]
    rw [ih ha' b]
    simp

theorem processLines_eq :
    ∀ (t : List (List Char)) (w h : List Char),
      processLines w (h :: t)
        = (((((w ++ h) :: t).dropLast).filter (fun l => !l.isEmpty)).map feedLine,
           ((((w ++ h) :: t).getLast?).getD []))
  | [], w, h => by
    rw [processLines]
    simp
  | l2 :: ls, w, h => by
    rw [processLines, processLines_eq ls [] l2]
    rw [show ((w ++ h) :: l2 :: ls).dropLast = (w ++ h) :: (l2 :: ls).dropLast
        from rfl]
    rw [List.getLast?_cons_cons, List.filter_cons]
    by_cases hwh : (w ++ h).isEmpty = true
    · rw [if_pos hwh, if_neg (by rw [hwh]; decide)]
      simp
    · have hwh' : (w ++ h).isEmpty = false := by rwa [Bool.not_eq_true] at hwh
      rw [if_neg hwh, if_pos (by rw [hwh']; decide)]
      simp

theorem splitLF_chars :
    ∀ l : List Char, ∀ x ∈ splitLF l, ∀ c ∈ x, c ∈ l ∧ ¬ c = '\n'
  | [], x, hx, c, hc => by
    rw [splitLF] at hx
    rcases List.mem_singleton.mp hx with rfl
    exact absurd hc (List.not_mem_nil c)
  | d :: ds, x, hx, c, hc => by
    rw [splitLF] at hx
    by_cases hd : d = '\n'
    · rw [if_pos hd] at hx
      rcases List.mem_cons.mp hx with rfl | hx'
      · exact absurd hc (List.not_mem_nil c)
      · obtain ⟨h1, h2⟩ := splitLF_chars ds x hx' c hc
        exact ⟨List.mem_cons_of_mem d h1, h2⟩
    · rw [if_neg hd] at hx
      rcases List.mem_cons.mp hx with rfl | hx'
      · rcases List.mem_cons.mp hc with rfl | hc'
        · exact ⟨List.mem_cons_self c ds, hd⟩
        · have hhead : (splitLF ds).headD [] ∈ splitLF ds := by
            rcases hs : splitLF ds with _ | ⟨r, rs⟩
            · exact absurd hs (splitLF_ne_nil ds)
            · exact List.mem_cons_self r rs
          obtain ⟨h1, h2⟩ := splitLF_chars ds _ hhead c hc'
          exact ⟨List.mem_cons_of_mem d h1, h2⟩
      · have hxr : x ∈ splitLF ds := by
          rcases hs : splitLF ds with _ | ⟨r, rs⟩
          · exact absurd hs (splitLF_ne_nil ds)
          · rw [hs] at hx'
            exact List.mem_cons_of_mem r hx'
        obtain ⟨h1, h2⟩ := splitLF_chars ds x hxr c hc
        exact ⟨List.mem_cons_of_mem d h1, h2⟩

theorem normalizeCRLF_no_cr {chunk : List Char} {c : Char}
    (h : c ∈ normalizeCRLF chunk) : ¬ c = '\x0d' := by
  rcases List.mem_map.mp h with ⟨x, -, rfl⟩
  by_cases hx : x = '\x0d' <;> simp [hx]

/-- C8 (amended). Inbound framing: provided the retained buffer holds no
LF and no CR (which the function itself re-establishes), `handle_chunk`
behaves exactly as the claim says except that empty completed fields are
discarded silently: it splits the concatenation of the buffer and the
CR-normalized chunk on LF, feeds every non-empty completed field to the
codec (failures produce a `#log error` inform, successes a dispatch), and
retains exactly the final unfinished field — which again holds no LF and
no CR — as the new buffer. -/
theorem handle_chunk_framing (buffer chunk : List Char)
    (hn : '\n' ∉ buffer) (hr : '\x0d' ∉ buffer) :
    handle_chunk buffer chunk = chunkSpecNE buffer chunk ∧
    '\n' ∉ (handle_chunk buffer chunk).2 ∧
    '\x0d' ∉ (handle_chunk buffer chunk).2 := by
  have hmain : handle_chunk buffer chunk = chunkSpecNE buffer chunk := by
    unfold handle_chunk chunkSpecNE
    rcases hs : splitLF (normalizeCRLF chunk) with _ | ⟨h, t⟩
    · exact absurd hs (splitLF_ne_nil _)
    · rw [splitLF_append hn (normalizeCRLF chunk), hs]
      simp only [List.headD_cons, List.tail_cons]
      rw [processLines_eq t buffer h]
  have htail : ∀ c, c ∈ (handle_chunk buffer chunk).2 →
      c ∈ buffer ++ normalizeCRLF chunk ∧ ¬ c = '\n' := by
    rw [hmain]
    unfold chunkSpecNE
    intro c hcmem
    dsimp only at hcmem
    rcases hlast : (splitLF (buffer ++ normalizeCRLF chunk)).getLast? with _ | x
    · rw [hlast] at hcmem
      exact absurd hcmem (List.not_mem_nil c)
    · rw [hlast] at hcmem
      simp only [Option.getD_some] at hcmem
      exact splitLF_chars _ x (mem_of_getLast?_eq hlast) c hcmem
  refine ⟨hmain, ?_, ?_⟩
  · intro hcon
    exact (htail _ hcon).2 rfl
  · intro hcon
    rcases List.mem_append.mp (htail _ hcon).1 with hb | hc
    · exact hr hb
    · exact normalizeCRLF_no_cr hc rfl

/-- Witness for C8 (amended) on a buffer holding a partial line and a chunk
completing it, containing a malformed line, and leaving a new tail. -/
theorem handle_chunk_framing_witness :
    handle_chunk "?wat".toList "chdog\n%bad\n?ne".toList
      = chunkSpecNE "?wat".toList "chdog\n%bad\n?ne".toList ∧
    '\n' ∉ (handle_chunk "?wat".toList "chdog\n%bad\n?ne".toList).2 ∧
    '\x0d' ∉ (handle_chunk "?wat".toList "chdog\n%bad\n?ne".toList).2 :=
  handle_chunk_framing "?wat".toList "chdog\n%bad\n?ne".toList
    (by decide) (by decide)

end Katcp

namespace Katcp

/-- The whitespace Python `str.strip()` removes. -/
def pyWS (c : Char) : Bool :=
  c == ' ' || c == '\t' || c == '\n' || c == '\x0d' || c == '\x0b' || c == '\x0c'

/-- Python `str.strip()`: drop leading and trailing whitespace. -/
def pyStrip (s : List Char) : List Char :=
  ((s.dropWhile pyWS).reverse.dropWhile pyWS).reverse

/-- Lexicographic less-or-equal on byte strings, as Python 2 compares the
keys of `sorted(dict.items())`. -/
def lexLe : List Char → List Char → Bool
  | [], _ => true
  | _ :: _, [] => false
  | a :: as, b :: bs =>
    if a = b then lexLe as bs else decide (a < b)

theorem lexLe_trans : ∀ a b c : List Char,
    lexLe a b = true → lexLe b c = true → lexLe a c = true
  | [], _, _, _, _ => rfl
  | a :: as, [], c, hab, _ => by rw [lexLe] at hab; exact absurd hab (by decide)
  | a :: as, b :: bs, [], _, hbc => by
    rw [lexLe] at hbc
    exact absurd hbc (by decide)
  | a :: as, b :: bs, c :: cs, hab, hbc => by
    rw [lexLe] at hab hbc ⊢
    by_cases h1 : a = b
    · subst h1
      rw [if_pos rfl] at hab
      by_cases h2 : a = c
      · subst h2
        rw [if_pos rfl] at hbc ⊢
        exact lexLe_trans as bs cs hab hbc
      · rw [if_neg h2] at hbc ⊢
        exact hbc
    · rw [if_neg h1] at hab
      have hlt1 : a < b := of_decide_eq_true hab
      by_cases h2 : b = c
      · subst h2
        rw [if_neg h1]
        exact hab
      · rw [if_neg h2] at hbc
        have hlt2 : b < c := of_decide_eq_true hbc
        have hlt : a < c := lt_trans hlt1 hlt2
        rw [if_neg (ne_of_lt hlt)]
        exact decide_eq_true hlt

theorem lexLe_total : ∀ a b : List Char, lexLe a b = true ∨ lexLe b a = true
  | [], _ => Or.inl rfl
  | _ :: _, [] => Or.inr rfl
  | a :: as, b :: bs => by
    rw [lexLe, lexLe]
    by_cases h : a = b
    · subst h
      rw [if_pos rfl, if_pos rfl]
      exact lexLe_total as bs
    · rw [if_neg h, if_neg (Ne.symm h)]
      rcases lt_trichotomy a b with hlt | heq | hgt
      · exact Or.inl (decide_eq_true hlt)
      · exact absurd heq h
      · exact Or.inr (decide_eq_true hgt)

/-- The order `sorted(self._request_handlers.items())` uses, restricted to
the (unique) keys. -/
def keyLe (p q : List Char × List Char) : Prop :=
  lexLe p.1 q.1 = true

instance : DecidableRel keyLe :=
  fun p q => inferInstanceAs (Decidable (lexLe p.1 q.1 = true))

instance : IsTotal (List Char × List Char) keyLe :=
  ⟨fun p q => lexLe_total p.1 q.1⟩

instance : IsTrans (List Char × List Char) keyLe :=
  ⟨fun p q r => lexLe_trans p.1 q.1 r.1⟩

/-- Decimal rendering of the inform count (`str(num_methods)`). -/
def natToChars (n : Nat) : List Char :=
  (toString n).toList

/-- `DeviceServer.request_help`: with no argument, emit one
`#help <name> <docstring>` inform per registered request handler, iterating
`sorted(self._request_handlers.items())`, then reply
`!help ok <count>`; with a name, one inform carrying the stripped
docstring then `!help ok 1` for a registered name, and
`!help fail "Unknown request method."` with no inform otherwise. -/
def request_help (handlers : List (List Char × List Char))
    (args : List (List Char)) : List Message × Message :=
  match args with
  | [] =>
    ((handlers.insertionSort keyLe).map
        (fun e => ⟨.inform, "help".toList, [e.1, e.2]⟩),
     ⟨.reply, "help".toList, ["ok".toList, natToChars handlers.length]⟩)
  | name :: _ =>
    match lookupName name handlers with
    | some doc =>
      ([⟨.inform, "help".toList, [name, pyStrip doc]⟩],
       ⟨.reply, "help".toList, ["ok".toList, "1".toList]⟩)
    | none =>
      ([], ⟨.reply, "help".toList,
        ["fail".toList, "Unknown request method.".toList]⟩)

/-- C9. Help enumeration: `?help` emits exactly one `#help <name> <doc>`
inform per registered handler — the emitted informs are a permutation of
one inform per table entry, their names are in lexicographic order, and
their number equals the count in the `!help ok <count>` reply;
`?help <name>` for a registered name emits exactly that one inform then
`!help ok 1`, and for an unregistered name replies
`!help fail "Unknown request method."` with no inform. -/
theorem request_help_spec (handlers : List (List Char × List Char))
    (name : List Char) :
    List.Perm (request_help handlers []).1
        (handlers.map (fun e => ⟨.inform, "help".toList, [e.1, e.2]⟩)) ∧
    ((request_help handlers []).1.map
        (fun m => m.arguments.headD [])).Sorted (fun a b => lexLe a b = true) ∧
    (request_help handlers []).1.length = handlers.length ∧
    (request_help handlers []).2
      = ⟨.reply, "help".toList, ["ok".toList, natToChars handlers.length]⟩ ∧
    (∀ doc, lookupName name handlers = some doc →
      request_help handlers [name]
        = ([⟨.inform, "help".toList, [name, pyStrip doc]⟩],
           ⟨.reply, "help".toList, ["ok".toList, "1".toList]⟩)) ∧
    (lookupName name handlers = none →
      request_help handlers [name]
        = ([], ⟨.reply, "help".toList,
            ["fail".toList, "Unknown request method.".toList]⟩)) := by
  refine ⟨?_, ?_, ?_, rfl, ?_, ?_⟩
  · exact (List.perm_insertionSort keyLe handlers).map _
  · show ((handlers.insertionSort keyLe).map
        (fun e => (⟨.inform, "help".toList, [e.1, e.2]⟩ : Message))).map
          (fun m => m.arguments.headD [])
      |>.Sorted (fun a b => lexLe a b = true)
    rw [List.map_map]
    have hsorted := List.sorted_insertionSort keyLe handlers
    exact List.Pairwise.map _ (fun a b hab => hab) hsorted
  · show ((handlers.insertionSort keyLe).map _).length = handlers.length
    rw [List.length_map]
    exact (List.perm_insertionSort keyLe handlers).length_eq
  · intro doc hl
    unfold request_help
    dsimp only
    rw [hl]
  · intro hl
    unfold request_help
    dsimp only
    rw [hl]

/-- Witness for C9 on a two-entry handler table. -/
theorem request_help_spec_witness :
    request_help
        [("watchdog".toList, " Check ".toList), ("halt".toList, "H".toList)]
        ["watchdog".toList]
      = ([⟨.inform, "help".toList, ["watchdog".toList, "Check".toList]⟩],
         ⟨.reply, "help".toList, ["ok".toList, "1".toList]⟩) ∧
    request_help
        [("watchdog".toList, " Check ".toList), ("halt".toList, "H".toList)]
        ["nope".toList]
      = ([], ⟨.reply, "help".toList,
          ["fail".toList, "Unknown request method.".toList]⟩) :=
  ⟨Eq.trans
    ((request_help_spec
        [("watchdog".toList, " Check ".toList), ("halt".toList, "H".toList)]
        "watchdog".toList).2.2.2.2.1 " Check ".toList (by decide))
    (by decide),
   (request_help_spec
      [("watchdog".toList, " Check ".toList), ("halt".toList, "H".toList)]
      "nope".toList).2.2.2.2.2 (by decide)⟩

end Katcp

namespace Katcp

/-- The server bookkeeping `send_message` can touch: the client socket
list, the partial-buffer map, the per-socket send-lock map and the
per-client strategy maps; sockets are identified by numbers. -/
structure ServerState where
  socks : List Nat
  waitingChunks : List (Nat × List Char)
  sockLocks : List Nat
  strategies : List (Nat × List Nat)
deriving DecidableEq, Repr

/-- One `sock.send` call's result: bytes accepted, `EAGAIN`, or another
socket error. -/
inductive SendOutcome where
  | sent (n : Nat)
  | eagain
  | sockError
deriving DecidableEq, Repr

/-- `DeviceServerBase.remove_socket`: close the socket and remove it from
the socket, chunk and lock maps (when present). -/
def remove_socket (st : ServerState) (sock : Nat) : ServerState :=
  if sock ∈ st.socks then
    { st with
      socks := st.socks.erase sock,
      waitingChunks := st.waitingChunks.filter (fun e => decide (e.1 ≠ sock)),
      sockLocks := st.sockLocks.erase sock }
  else st

/-- The state effect of `DeviceServer.on_client_disconnect`: drop the
client's strategy map. -/
def dropStrategies (st : ServerState) (sock : Nat) : ServerState :=
  { st with strategies := st.strategies.filter (fun e => decide (e.1 ≠ sock)) }

/-- The send loop of `send_message`: while not all bytes are sent, consume
one outcome per `sock.send` attempt — `EAGAIN` retries, any other socket
error or a zero-byte send marks the send failed. Returns the failure flag
and the bytes sent; an exhausted outcome list ends the loop. -/
def sendLoop (datalen : Nat) : Nat → List SendOutcome → Bool × Nat
  | totalsent, [] => (false, totalsent)
  | totalsent, o :: os =>
    if totalsent < datalen then
      match o with
      | .sent n => if n = 0 then (true, totalsent)
                   else sendLoop datalen (totalsent + n) os
      | .eagain => sendLoop datalen totalsent os
      | .sockError => (true, totalsent)
    else (false, totalsent)

/-- `DeviceServerBase.send_message`: look up the per-socket send lock;
when the socket has none (it is no longer a client) log a warning and
return, sending nothing and changing nothing; otherwise run the send loop
under the lock and, on a failed send, remove the socket and fire the
disconnect hook. Returns the new state, the bytes sent, and whether the
"no longer a client" warning was logged. -/
def send_message (st : ServerState) (sock : Nat) (msg : Message)
    (outcomes : List SendOutcome) : ServerState × Nat × Bool :=
  let data := serialize msg ++ ['\n']
  if sock ∈ st.sockLocks then
    let r := sendLoop data.length 0 outcomes
    if r.1 then (dropStrategies (remove_socket st sock) sock, r.2, false)
    else (st, r.2, false)
  else (st, 0, true)

/-- C10. Send to a non-client is a no-op: when the socket has no registered
send lock, `send_message` returns without raising, sends no bytes, leaves
the whole server state (client list, partial-buffer map, lock map,
strategies) unchanged, and only logs the warning. -/
theorem send_message_no_client (st : ServerState) (sock : Nat) (msg : Message)
    (outcomes : List SendOutcome) (h : sock ∉ st.sockLocks) :
    send_message st sock msg outcomes = (st, 0, true) := by
  unfold send_message
  rw [if_neg h]

/-- Witness for C10: a socket that is not a current client, against a
one-client server. -/
theorem send_message_no_client_witness :
    send_message ⟨[1], [(1, [])], [1], [(1, [])]⟩ 5
        ⟨.reply, "w".toList, []⟩ [.sent 3]
      = (⟨[1], [(1, [])], [1], [(1, [])]⟩, 0, true) :=
  send_message_no_client ⟨[1], [(1, [])], [1], [(1, [])]⟩ 5
    ⟨.reply, "w".toList, []⟩ [.sent 3] (by decide)

end Katcp
